import Mathlib

/-!
# Verification of the `insv_dump` metadata engine

A shallow embedding, in Lean 4, of the INSV metadata discovery and decoding
engine of the `insv_dump` Python package, together with theorems settling the
frozen claims about its specification.

Conventions of the embedding:

* A byte source (an open binary file) is a `List ℕ` of byte values; `seek`
  followed by `read(n)` becomes a drop/take slice. Python raises on a seek to
  a negative position and `struct.unpack` raises when the buffer is too
  short; both become `Except.error`.
* Little-endian unsigned integers are decoded with `leUInt`; signed ones take
  the two's-complement value.
* IEEE-754 values are represented exactly: `float`/`double` fields that the
  claims inspect numerically (POS records) are decoded to their exact
  rational value from the bit pattern; `double` fields that no claim
  inspects numerically (gyro/exposure/GPS) are kept as their 64-bit
  little-endian bit patterns, which is injective on the byte level.
* Python's subclass hierarchy of `Frame` is flattened into a single
  structure carrying every subclass's fields (with their initial values);
  dispatch on `header.frame_type` in `Frame.parseInternal` mirrors the
  constructor dispatch of `Frame.read`.
* `while` loops whose counter strictly decreases are given an explicit fuel
  argument large enough that it is never exhausted, keeping every definition
  structurally recursive and hence evaluable by `decide`/`rfl`.
* The protobuf decoder used by `InfoFrame._parse_internal`
  (`insv_dump.proto.extra_metadata_pb2`, not part of the repository) is an
  external contract; it is modelled as an explicit oracle parameter, see
  `ProtoOracle` below.
-/

namespace InsvDump

/-! ## Byte-level decoding -/

/-- Little-endian unsigned integer value of a byte list
(`struct.unpack` with format `<I`, `<Q`, ... on the corresponding width). -/
def leUInt (bs : List ℕ) : ℕ :=
  bs.foldr (fun b acc => b + 256 * acc) 0

/-- Two's-complement signed value of a little-endian byte list of width `w`
bytes (`struct.unpack` with `<q` for `w = 8`, `<h` for `w = 2`). -/
def leSInt (w : ℕ) (bs : List ℕ) : ℤ :=
  let u := leUInt bs
  if u < 2 ^ (8 * w - 1) then (u : ℤ) else (u : ℤ) - 2 ^ (8 * w)

/-- `file.seek(pos); file.read(n)`: at most `n` bytes starting at `pos`
(short at end of file, as in Python); a negative seek position raises. -/
def seekRead (f : List ℕ) (pos : ℤ) (n : ℕ) : Except String (List ℕ) :=
  if pos < 0 then .error "negative seek position"
  else .ok ((f.drop pos.toNat).take n)

/-- Pure slice of a byte list (used on in-memory buffers, where Python
slicing never raises). -/
def slice (bs : List ℕ) (pos n : ℕ) : List ℕ :=
  (bs.drop pos).take n

/-! ## Frame types (`frames/frame_types.py`) -/

/-- The `FrameType` enumeration. -/
inductive FrameType where
  | RAW | INDEX | INFO | THUMBNAIL | GYRO | EXPOSURE | THUMBNAIL_EXT
  | TIMELAPSE | GPS | STAR_NUM | THREE_A_IN_TIMESTAMP | ANCHORS
  | THREE_A_SIMULATION | EXPOSURE_SECONDARY | MAGNETIC | EULER
  | GYRO_SECONDARY | SPEED | HEARTRATE | TBOX | EDITOR
  | FORWARD_DIRECTION | UPVIEW | SHELL_RECOGNITION_DATA | POS
  | TIMELAPSE_QUAT
  deriving DecidableEq, Repr

/-- Numeric code of each frame type. -/
def FrameType.code : FrameType → ℤ
  | .RAW => -1 | .INDEX => 0 | .INFO => 1 | .THUMBNAIL => 2 | .GYRO => 3
  | .EXPOSURE => 4 | .THUMBNAIL_EXT => 5 | .TIMELAPSE => 6 | .GPS => 7
  | .STAR_NUM => 8 | .THREE_A_IN_TIMESTAMP => 9 | .ANCHORS => 10
  | .THREE_A_SIMULATION => 11 | .EXPOSURE_SECONDARY => 12 | .MAGNETIC => 13
  | .EULER => 14 | .GYRO_SECONDARY => 15 | .SPEED => 16 | .TBOX => 17
  | .EDITOR => 18 | .HEARTRATE => 19 | .FORWARD_DIRECTION => 20
  | .UPVIEW => 21 | .SHELL_RECOGNITION_DATA => 22 | .POS => 23
  | .TIMELAPSE_QUAT => 24

/-- `FrameType.from_code`: the frame type with the given code, if any. -/
def FrameType.from_code (c : ℤ) : Option FrameType :=
  [FrameType.RAW, .INDEX, .INFO, .THUMBNAIL, .GYRO, .EXPOSURE,
   .THUMBNAIL_EXT, .TIMELAPSE, .GPS, .STAR_NUM, .THREE_A_IN_TIMESTAMP,
   .ANCHORS, .THREE_A_SIMULATION, .EXPOSURE_SECONDARY, .MAGNETIC, .EULER,
   .GYRO_SECONDARY, .SPEED, .HEARTRATE, .TBOX, .EDITOR, .FORWARD_DIRECTION,
   .UPVIEW, .SHELL_RECOGNITION_DATA, .POS,
   .TIMELAPSE_QUAT].find? (fun t => t.code = c)

/-- `DEFAULT_PARSED_TYPES`. -/
def DEFAULT_PARSED_TYPES : List FrameType :=
  [.INDEX, .INFO, .GYRO, .EXPOSURE, .TIMELAPSE, .GPS]

/-- `OPTIONAL_PARSED_TYPES`. -/
def OPTIONAL_PARSED_TYPES : List FrameType :=
  [.MAGNETIC, .EULER, .GYRO_SECONDARY, .SPEED, .HEARTRATE,
   .EXPOSURE_SECONDARY]

/-! ## File footer (`header.py`) -/

/-- The 32-byte ASCII magic constant `"8db42d694ccc418790edff439fe026bf"`. -/
def SIGNATURE : List ℕ :=
  [56, 100, 98, 52, 50, 100, 54, 57, 52, 99, 99, 99, 52, 49, 56, 55,
   57, 48, 101, 100, 102, 102, 52, 51, 57, 102, 101, 48, 50, 54, 98, 102]

/-- Size of the trailing footer block. -/
def HEADER_SIZE : ℕ := 72

/-- `InsvHeader`: the decoded file footer. -/
structure InsvHeader where
  unknown_buf : List ℕ
  version : ℕ
  metadata_size : ℕ
  metadata_pos : ℤ
  deriving DecidableEq, Repr

/-- `InsvHeader.read`: decode the 72-byte trailer. `Except.ok none` means
"no metadata present"; `Except.error` is the unsupported-version failure. -/
def InsvHeader.read (f : List ℕ) : Except String (Option InsvHeader) :=
  let file_size := f.length
  if file_size < HEADER_SIZE then .ok none
  else
    let header_data := slice f (file_size - HEADER_SIZE) HEADER_SIZE
    let unknown_buf := slice header_data 0 32
    let metadata_size := leUInt (slice header_data 32 4)
    let version := leUInt (slice header_data 36 4)
    let signature := slice header_data 40 32
    if signature ≠ SIGNATURE then .ok none
    else if version ≠ 3 then .error "Unsupported file version"
    else .ok (some ⟨unknown_buf, version, metadata_size,
                    (file_size : ℤ) - metadata_size⟩)

/-! ## Frame headers (`frames/frame_header.py`) -/

/-- Size of a per-frame trailing header. -/
def FRAME_HEADER_SIZE : ℕ := 6

/-- `FrameHeader`: one frame's directory entry. `frame_type` is recomputed
from the code by `FrameHeader.frame_type` rather than stored. -/
structure FrameHeader where
  frame_type_code : ℤ
  frame_version : ℕ
  frame_size : ℕ
  frame_pos : ℤ
  deriving DecidableEq, Repr

/-- The `frame_type` attribute set in `FrameHeader.__init__`. -/
def FrameHeader.frame_type (h : FrameHeader) : Option FrameType :=
  FrameType.from_code h.frame_type_code

/-- `FrameHeader.read_backward`: read the 6-byte header that ends at
`cur_pos` (1-byte version, 1-byte type code, 4-byte little-endian size);
the frame's payload starts at `cur_pos - size - 6`. -/
def FrameHeader.read_backward (f : List ℕ) (cur_pos : ℤ) :
    Except String FrameHeader := do
  let header_data ← seekRead f (cur_pos - FRAME_HEADER_SIZE) FRAME_HEADER_SIZE
  if h6 : header_data.length = 6 then
    let frame_version := header_data[0]
    let frame_type_code := header_data[1]
    let frame_size := leUInt (slice header_data 2 4)
    .ok ⟨frame_type_code, frame_version, frame_size,
         cur_pos - frame_size - FRAME_HEADER_SIZE⟩
  else .error "short read of frame header"

/-- `FrameHeader.from_index_entry`: decode one 10-byte INDEX table entry
(1-byte type, 1-byte version, 4-byte size, 4-byte offset from metadata
start); `none` when the type, version and size bytes are all zero. -/
def FrameHeader.from_index_entry (entry_data : List ℕ) (metadata_pos : ℤ) :
    Option FrameHeader :=
  let frame_type_code := entry_data.getD 0 0
  let frame_version := entry_data.getD 1 0
  let frame_size := leUInt (slice entry_data 2 4)
  let offset := leUInt (slice entry_data 6 4)
  if frame_type_code = 0 ∧ frame_version = 0 ∧ frame_size = 0 then none
  else some ⟨frame_type_code, frame_version, frame_size,
             metadata_pos + offset⟩

/-! ## Records (`records/*.py`) -/

/-- Timestamp width (`TS_SIZE`). -/
def TS_SIZE : ℕ := 8

/-- Exact rational value of an IEEE-754 binary32 number from its 4
little-endian bytes (`struct.unpack` with `<f`). Exponent 255 (infinities
and NaNs) does not occur in any input considered here; the formula extends
the finite pattern uniformly. -/
def decodeF32 (bs : List ℕ) : ℚ :=
  let bits : ℕ := leUInt bs
  let sign : ℕ := bits / 2 ^ 31
  let expo : ℕ := bits / 2 ^ 23 % 256
  let frac : ℕ := bits % 2 ^ 23
  let mag : ℚ :=
    if expo = 0 then (frac : ℚ) * (2 : ℚ) ^ (-(149 : ℤ))
    else ((2 ^ 23 + frac : ℕ) : ℚ) * (2 : ℚ) ^ ((expo : ℤ) - 150)
  if sign = 1 then -mag else mag

/-- `PosRecord`: the 44-byte drone position record, with its exact decoded
field values. -/
structure PosRecord where
  timestamp : ℕ
  x_pos : ℚ
  y_pos : ℚ
  z_pos : ℚ
  float3 : ℚ
  float4 : ℚ
  float5 : ℚ
  velocity_h : ℚ
  velocity_v : ℚ
  float8 : ℚ
  agl : ℚ
  deriving DecidableEq, Repr

/-- `PosRecord.parse`: 4-byte unsigned millisecond timestamp followed by
ten little-endian binary32 floats; raises (`struct.error`) when fewer than
44 bytes are available at `offset`. -/
def PosRecord.parse (data : List ℕ) (offset : ℕ) :
    Except String PosRecord :=
  if offset + 44 > data.length then .error "struct.error"
  else
    let timestamp := leUInt (slice data offset 4)
    let fl := fun i => decodeF32 (slice data (offset + 4 + 4 * i) 4)
    .ok ⟨timestamp, fl 0, fl 1, fl 2, fl 3, fl 4, fl 5, fl 6, fl 7, fl 8,
         fl 9⟩

/-- `PosRecord.speed`: derived total speed,
`math.sqrt(velocity_h ** 2 + velocity_v ** 2)` (exact whenever the true
square root is representable, since `math.sqrt` is correctly rounded). -/
noncomputable def PosRecord.speed (r : PosRecord) : ℝ :=
  Real.sqrt ((r.velocity_h : ℝ) ^ 2 + (r.velocity_v : ℝ) ^ 2)

/-- `PosRecord.agl_valid`: the above-ground-level reading is usable. -/
def PosRecord.agl_valid (r : PosRecord) : Prop := r.agl > 0

instance (r : PosRecord) : Decidable r.agl_valid := by
  unfold PosRecord.agl_valid; infer_instance

/-- Shape of the external (JSON) representation built by
`PosRecord.to_dict`: the fixed keys, plus `agl` only when present. -/
structure PosDict where
  timestamp : ℕ
  xPos : ℚ
  yPos : ℚ
  zPos : ℚ
  velocityH : ℚ
  velocityV : ℚ
  speed : ℝ
  agl : Option ℚ

/-- `PosRecord.to_dict`: the `agl` key is included only when
`agl_valid` holds. -/
noncomputable def PosRecord.to_dict (r : PosRecord) : PosDict :=
  { timestamp := r.timestamp
    xPos := r.x_pos
    yPos := r.y_pos
    zPos := r.z_pos
    velocityH := r.velocity_h
    velocityV := r.velocity_v
    speed := r.speed
    agl := if r.agl > 0 then some r.agl else none }

/-- One decoded record, tagged by kind. Doubles (`<d`) kept as 64-bit
little-endian bit patterns; shorts (`<h`) as signed integers. -/
inductive RecordData where
  | gyroV1 (timestamp : ℤ) (payload : List ℕ)
  | gyroV2 (timestamp : ℤ) (payload : List ℤ)
  | gyroRaw (timestamp : ℤ) (payload : List ℕ)
  | exposure (timestamp : ℤ) (shutter_speed_bits : ℕ)
  | gps (timestamp : ℤ) (payload : List ℕ) (latitude_bits : ℕ) (ns : ℕ)
        (longitude_bits : ℕ) (ew : ℕ) (speed_bits : ℕ) (track_bits : ℕ)
        (altitude_bits : ℕ)
  | timelapse (timestamp : ℤ)
  | pos (r : PosRecord)
  deriving DecidableEq, Repr

/-- `GyroV1Record.SIZE` (56) / `GyroV2Record.SIZE` (20). -/
def GyroV1Record.SIZE : ℕ := TS_SIZE + 6 * 8
def GyroV2Record.SIZE : ℕ := TS_SIZE + 6 * 2

/-- `GyroV1Record.parse`: 8-byte signed timestamp + six doubles. -/
def GyroV1Record.parse (data : List ℕ) (offset : ℕ) :
    Except String RecordData :=
  if offset + 8 > data.length then .error "struct.error"
  else if offset + TS_SIZE + 48 > data.length then .error "struct.error"
  else
    .ok (.gyroV1 (leSInt 8 (slice data offset 8))
      (((List.range 6).map
        (fun i => leUInt (slice data (offset + TS_SIZE + 8 * i) 8)))))

/-- `GyroV2Record.parse`: 8-byte signed timestamp + six signed shorts. -/
def GyroV2Record.parse (data : List ℕ) (offset : ℕ) :
    Except String RecordData :=
  if offset + 8 > data.length then .error "struct.error"
  else if offset + TS_SIZE + 12 > data.length then .error "struct.error"
  else
    .ok (.gyroV2 (leSInt 8 (slice data offset 8))
      (((List.range 6).map
        (fun i => leSInt 2 (slice data (offset + TS_SIZE + 2 * i) 2)))))

/-- `GyroRawRecord.parse`: 8-byte signed timestamp + the remaining
`record_size - 8` bytes kept raw (an empty slice when
`record_size < 8`, by Python slice semantics). -/
def GyroRawRecord.parse (data : List ℕ) (record_size offset : ℕ) :
    Except String RecordData :=
  if offset + 8 > data.length then .error "struct.error"
  else
    .ok (.gyroRaw (leSInt 8 (slice data offset 8))
      (slice data (offset + TS_SIZE) (record_size - TS_SIZE)))

/-- `ExposureRecord.SIZE` / `GpsRecord.SIZE` / `TimelapseRecord.SIZE`. -/
def ExposureRecord.SIZE : ℕ := TS_SIZE + 8
def GpsRecord.SIZE : ℕ := TS_SIZE + 45
def TimelapseRecord.SIZE : ℕ := TS_SIZE

/-- `ExposureRecord.parse`. -/
def ExposureRecord.parse (data : List ℕ) (offset : ℕ) :
    Except String RecordData :=
  if offset + 16 > data.length then .error "struct.error"
  else
    .ok (.exposure (leSInt 8 (slice data offset 8))
      (leUInt (slice data (offset + TS_SIZE) 8)))

/-- `GpsRecord.parse`: timestamp, 3 skipped bytes, latitude, N/S byte,
longitude, E/W byte, speed, track, altitude. -/
def GpsRecord.parse (data : List ℕ) (offset : ℕ) :
    Except String RecordData :=
  if offset + GpsRecord.SIZE > data.length then .error "struct.error"
  else
    let base := offset + TS_SIZE + 3
    .ok (.gps (leSInt 8 (slice data offset 8))
      (slice data (offset + TS_SIZE) 45)
      (leUInt (slice data base 8)) (data.getD (base + 8) 0)
      (leUInt (slice data (base + 9) 8)) (data.getD (base + 17) 0)
      (leUInt (slice data (base + 18) 8))
      (leUInt (slice data (base + 26) 8))
      (leUInt (slice data (base + 34) 8)))

/-- `TimelapseRecord.parse`. -/
def TimelapseRecord.parse (data : List ℕ) (offset : ℕ) :
    Except String RecordData :=
  if offset + 8 > data.length then .error "struct.error"
  else .ok (.timelapse (leSInt 8 (slice data offset 8)))

/-! ## Frames (`frames/*.py`)

Python's `Frame` subclass hierarchy (`IndexFrame`, `InfoFrame`, `GyroFrame`,
`GpsFrame`, `ExposureFrame`, `TimelapseFrame`, `PosFrame`) is flattened into
one structure carrying every subclass's instance fields at their
`__init__` defaults; the constructor dispatch of `Frame.read` becomes the
dispatch on `header.frame_type` in `Frame.parseInternal`. A frame whose
type is `INFO` is always an `InfoFrame` (both `Frame.read` and the INDEX
path construct it that way), so the `isinstance` test of
`GyroFrame._record_size` is always true here. -/

/-- `INDEX_ENTRY_SIZE`. -/
def INDEX_ENTRY_SIZE : ℕ := 10

/-- `PosRecord.SIZE`. -/
def PosRecord.SIZE : ℕ := 44

/-- A frame: descriptor, raw payload, decoded flag, and the decoded state
of whichever subclass the type dispatches to. -/
structure Frame where
  header : FrameHeader
  payload : List ℕ
  parsed : Bool := false
  /-- `IndexFrame.frames_index`. -/
  frames_index : List (Option FrameHeader) := []
  /-- `TimestampedFrame.records`. -/
  records : List RecordData := []
  /-- `GyroFrame._record_size_value`. -/
  record_size_value : ℕ := 0
  /-- `InfoFrame._gyro_data_size`. -/
  gyro_data_size : ℕ := 0
  deriving DecidableEq, Repr

/-- `Frame.read`: seek to the payload and read `frame_size` bytes. -/
def Frame.read (f : List ℕ) (header : FrameHeader) : Except String Frame := do
  let payload ← seekRead f header.frame_pos header.frame_size
  .ok { header := header, payload := payload }

/-- `Frame.read_raw`: synthetic RAW frame spanning `[from_pos, to_pos)`
(only invoked with `from_pos < to_pos`; the size is their difference). -/
def Frame.read_raw (f : List ℕ) (from_pos to_pos : ℤ) :
    Except String Frame := do
  let payload ← seekRead f from_pos (to_pos - from_pos).toNat
  .ok { header := ⟨FrameType.RAW.code, 0, (to_pos - from_pos).toNat,
          from_pos⟩
        payload := payload }

/-- Result of the external protobuf decode of an INFO payload: whether the
`Gyro` field is present, and its byte length.

Modelled from the spec: the opaque structured-message decoder
(`insv_dump.proto.extra_metadata_pb2`, not part of this repository) is an
externally defined contract of which only the presence and byte length of
the `Gyro` field are consumed. -/
structure ProtoResult where
  hasGyro : Bool
  gyro_len : ℕ

/-- The external protobuf decoder, as an oracle parameter; `.error` models
a `ParseFromString` failure.

Modelled from the spec: the sub-message's internal schema is an external,
already-defined contract, so the decoder is kept abstract. -/
def ProtoOracle := List ℕ → Except String ProtoResult

/-- Oracle used during `InsvMetadata.read`, which never decodes an INFO
frame (only the INDEX frame is parsed while building the directory). -/
def noProtoOracle : ProtoOracle := fun _ => .error "protobuf decoder unused"

/-- The metadata aggregate (`InsvMetadata`). -/
structure InsvMetadata where
  header : InsvHeader
  frames : List Frame
  deriving Repr

/-- `InsvMetadata.find_frame`: first frame of the given logical type. -/
def InsvMetadata.find_frame (md : InsvMetadata) (t : FrameType) :
    Option Frame :=
  md.frames.find? (fun fr => fr.header.frame_type = some t)

/-- `InsvMetadata.find_frame_by_code`: first frame with the raw code. -/
def InsvMetadata.find_frame_by_code (md : InsvMetadata) (c : ℤ) :
    Option Frame :=
  md.frames.find? (fun fr => fr.header.frame_type_code = c)

/-- `IndexFrame._parse_internal`: a payload whose length is not a multiple
of 10 raises; otherwise every 10-byte entry is decoded in order (all-zero
entries yield `none`). The `while` loop advances `offset` by 10 over the
whole payload; it is rendered as a map over the chunk indices. -/
def IndexFrame.parseInternal (metadata_pos : ℤ) (fr : Frame) :
    Except String (Bool × Frame) :=
  if fr.payload.length % INDEX_ENTRY_SIZE ≠ 0 then
    .error "Unexpected INDEX frame size"
  else
    .ok (true, { fr with frames_index := (fr.frames_index ++
      (List.range (fr.payload.length / INDEX_ENTRY_SIZE)).map
        (fun i => FrameHeader.from_index_entry
          (slice fr.payload (INDEX_ENTRY_SIZE * i) INDEX_ENTRY_SIZE)
          metadata_pos)) })

/-- `InfoFrame._parse_internal`: version must be 1 (the protobuf
serializer); on success the gyro data size is the byte length of the
`Gyro` field if present, else 0. -/
def InfoFrame.parseInternal (pd : ProtoOracle) (fr : Frame) :
    Except String (Bool × Frame) :=
  if fr.header.frame_version ≠ 1 then
    .error "Unsupported InfoFrame version"
  else do
    let r ← pd fr.payload
    .ok (true,
      { fr with gyro_data_size := if r.hasGyro then r.gyro_len else 0 })

/-- `InfoFrame.get_gyro_record_size`. -/
def InfoFrame.get_gyro_record_size (fr : Frame) : ℕ := fr.gyro_data_size

/-- `GyroFrame._record_size`: cached positive value if set, else 0 when the
INFO frame is absent or undecoded, else the INFO frame's gyro data size
(which is then cached). Returns the size together with the updated frame. -/
def GyroFrame.record_size (md : InsvMetadata) (fr : Frame) : ℕ × Frame :=
  if 0 < fr.record_size_value then (fr.record_size_value, fr)
  else
    match md.find_frame .INFO with
    | none => (0, fr)
    | some info_frame =>
      if info_frame.parsed = false then (0, fr)
      else (InfoFrame.get_gyro_record_size info_frame,
        { fr with
          record_size_value := InfoFrame.get_gyro_record_size info_frame })

/-- `GyroFrame._parse_record`: variant chosen purely by the record size. -/
def GyroFrame.parse_record (data : List ℕ) (offset record_size : ℕ) :
    Except String RecordData :=
  if record_size = GyroV1Record.SIZE then GyroV1Record.parse data offset
  else if record_size = GyroV2Record.SIZE then GyroV2Record.parse data offset
  else GyroRawRecord.parse data record_size offset

/-- The record-reading `while` loop of `TimestampedFrame._parse_internal`:
one record per `record_size` bytes while a full record remains. Fuel is
`payload.length + 1`, never exhausted since `record_size ≥ 1`. -/
def recordLoop (pr : List ℕ → ℕ → Except String RecordData)
    (payload : List ℕ) (record_size : ℕ) :
    ℕ → ℕ → Except String (List RecordData)
  | _, 0 => .error "fuel exhausted"
  | offset, fuel + 1 =>
    if offset + record_size ≤ payload.length then do
      let r ← pr payload offset
      let rest ← recordLoop pr payload record_size (offset + record_size) fuel
      .ok (r :: rest)
    else .ok []

/-- `TimestampedFrame._parse_internal`: a non-positive record size skips
decoding (returning false); otherwise all whole records are decoded and
appended. -/
def timestampedParseInternal (pr : List ℕ → ℕ → Except String RecordData)
    (record_size : ℕ) (fr : Frame) : Except String (Bool × Frame) :=
  if record_size ≤ 0 then .ok (false, fr)
  else do
    let recs ← recordLoop pr fr.payload record_size 0 (fr.payload.length + 1)
    .ok (true, { fr with records := fr.records ++ recs })

/-- `Frame._parse_internal`, together with the subclass dispatch of
`Frame.read`: frames of a type with no decoding subclass (including
unrecognized codes and RAW) fall to the base implementation, which does
nothing and returns false. -/
def Frame.parseInternal (pd : ProtoOracle) (md : InsvMetadata)
    (fr : Frame) : Except String (Bool × Frame) :=
  match fr.header.frame_type with
  | some .INDEX => IndexFrame.parseInternal md.header.metadata_pos fr
  | some .INFO => InfoFrame.parseInternal pd fr
  | some .GYRO =>
    timestampedParseInternal
      (fun d o => GyroFrame.parse_record d o
        (GyroFrame.record_size md fr).1)
      (GyroFrame.record_size md fr).1 (GyroFrame.record_size md fr).2
  | some .GPS => timestampedParseInternal GpsRecord.parse GpsRecord.SIZE fr
  | some .EXPOSURE =>
    timestampedParseInternal ExposureRecord.parse ExposureRecord.SIZE fr
  | some .TIMELAPSE =>
    timestampedParseInternal TimelapseRecord.parse TimelapseRecord.SIZE fr
  | some .POS =>
    timestampedParseInternal
      (fun d o => (PosRecord.parse d o).map RecordData.pos)
      PosRecord.SIZE fr
  | _ => .ok (false, fr)

/-- `Frame.parse`: a no-op returning true when already parsed; otherwise
runs `_parse_internal` and records its success in the `parsed` flag. -/
def Frame.parse (pd : ProtoOracle) (md : InsvMetadata) (fr : Frame) :
    Except String (Bool × Frame) :=
  if fr.parsed then .ok (true, fr)
  else do
    let (ok, fr') ← Frame.parseInternal pd md fr
    .ok (ok, { fr' with parsed := ok })

/-! ## Directory construction (`metadata.py`) -/

/-- Python's stable `list.sort(key=lambda f: -f.header.frame_pos)`:
insertion of one frame into a position-descending list, before the first
element whose position is not larger (so that, combined with `foldr`,
elements of equal position keep their original relative order). -/
def insertDescByPos (fr : Frame) : List Frame → List Frame
  | [] => [fr]
  | x :: xs =>
    if x.header.frame_pos ≤ fr.header.frame_pos then fr :: x :: xs
    else x :: insertDescByPos fr xs

/-- Stable sort by descending frame position. -/
def sortFramesDesc (l : List Frame) : List Frame :=
  l.foldr insertDescByPos []

/-- The gap-filling walk of `_read_indexed_frames`: frames sorted by
descending position are emitted in order, a RAW filler being inserted
whenever a frame's end falls short of the previous frame's start. The
`Bool` is ghost instrumentation recording that no frame's end ever
exceeded the previous start (the code compares the two values anyway; the
flag remembers whether the overlapping arm of that comparison was ever
taken). -/
def InsvMetadata.gapWalk (f : List ℕ) :
    ℤ → List Frame → Except String (List Frame × Bool)
  | _, [] => .ok ([], true)
  | prev_pos, fr :: rest =>
    if fr.header.frame_pos + fr.header.frame_size + FRAME_HEADER_SIZE <
        prev_pos then do
      let raw ← Frame.read_raw f
        (fr.header.frame_pos + fr.header.frame_size + FRAME_HEADER_SIZE)
        prev_pos
      let (tail, clean) ← InsvMetadata.gapWalk f fr.header.frame_pos rest
      .ok (raw :: fr :: tail, clean)
    else do
      let (tail, clean) ← InsvMetadata.gapWalk f fr.header.frame_pos rest
      .ok (fr :: tail,
        if fr.header.frame_pos + fr.header.frame_size + FRAME_HEADER_SIZE =
            prev_pos then clean else false)

/-- `InsvMetadata._read_indexed_frames`: read every non-sentinel entry's
frame, sort by descending position, and walk inserting gap fillers,
starting from the index frame's own position. -/
def InsvMetadata.read_indexed_frames (f : List ℕ) (index_frame : Frame) :
    Except String (List Frame × Bool) := do
  let frames ← (index_frame.frames_index.filterMap id).mapM (Frame.read f)
  InsvMetadata.gapWalk f index_frame.header.frame_pos
    (sortFramesDesc frames)

/-- The backward-scan `while` loop of `InsvMetadata.read`: starting at
`file_size - HEADER_SIZE`, read the trailing 6-byte header, read the
frame, and continue at the frame's start; when an INDEX frame appears it
is parsed at once, the remaining directory is taken from its table, and
the scan stops. Fuel decreases by one per iteration while `cur_pos`
decreases by at least 6; `metadata_size + 1` units never run out. -/
def InsvMetadata.readLoop (f : List ℕ) (header : InsvHeader) :
    ℕ → ℤ → List Frame → Except String (List Frame × Bool)
  | 0, _, _ => .error "fuel exhausted"
  | fuel + 1, cur_pos, acc =>
    if cur_pos ≤ header.metadata_pos then .ok (acc, true)
    else do
      let frame_header ← FrameHeader.read_backward f cur_pos
      let fr ← Frame.read f frame_header
      if frame_header.frame_type = some .INDEX then do
        let (_, fr') ← Frame.parse noProtoOracle ⟨header, acc ++ [fr]⟩ fr
        let (indexed, clean) ← InsvMetadata.read_indexed_frames f fr'
        .ok (acc ++ [fr'] ++ indexed, clean)
      else
        InsvMetadata.readLoop f header fuel
          (cur_pos - frame_header.frame_size - FRAME_HEADER_SIZE)
          (acc ++ [fr])

/-- `InsvMetadata.read`: locate the footer (`ok none` when absent), scan
the frames backward, add the leading RAW filler if the earliest frame
starts after `metadata_pos`, and reverse into file order. The `Bool` is
the ghost cleanliness flag of the index walk. -/
def InsvMetadata.read (f : List ℕ) :
    Except String (Option (InsvMetadata × Bool)) := do
  match ← InsvHeader.read f with
  | none => .ok none
  | some header => do
    let (frames, clean) ← InsvMetadata.readLoop f header
      (header.metadata_size + 1) ((f.length : ℤ) - HEADER_SIZE) []
    let frames ← (match frames.getLast? with
      | some last_frame =>
        if last_frame.header.frame_pos > header.metadata_pos then do
          let raw ← Frame.read_raw f header.metadata_pos
            last_frame.header.frame_pos
          pure (frames ++ [raw])
        else pure frames
      | none => pure frames)
    .ok (some (⟨header, frames.reverse⟩, clean))

/-! ## Bulk parse (`InsvMetadata.parse`) -/

/-- Placeholder used with `List.getD`; the loops below only index within
bounds. -/
def defaultFrame : Frame := { header := ⟨-1, 0, 0, 0⟩, payload := [] }

/-- Replace frame `i`. -/
def InsvMetadata.set_frame (md : InsvMetadata) (i : ℕ) (fr : Frame) :
    InsvMetadata :=
  { md with frames := md.frames.set i fr }

/-- Index of the first INFO-typed frame (the frame `find_frame` returns,
identified by position so the loop can skip exactly that object). -/
def InsvMetadata.findInfoIdx (md : InsvMetadata) : Option ℕ :=
  md.frames.findIdx? (fun fr => fr.header.frame_type = some FrameType.INFO)

/-- `frame_type in types_to_parse`, where `frame_type` may be `None`
(never a member). -/
def typeIn (o : Option FrameType) (types : List FrameType) : Bool :=
  match o with
  | some t => t ∈ types
  | none => false

/-- The `for frame in self.frames` loop of `InsvMetadata.parse`, over frame
indices: the INFO frame already parsed is skipped (`frame is info_frame`),
and every frame whose type is in the requested set is parsed in place. The
trace accumulates, as ghost instrumentation, the indices on which
`Frame.parse` is invoked, in invocation order. -/
def InsvMetadata.parseLoop (pd : ProtoOracle) (types : List FrameType)
    (info_idx : Option ℕ) :
    List ℕ → InsvMetadata × List ℕ → Except String (InsvMetadata × List ℕ)
  | [], s => .ok s
  | i :: rest, (md, trace) =>
    if info_idx = some i then
      InsvMetadata.parseLoop pd types info_idx rest (md, trace)
    else if typeIn (md.frames.getD i defaultFrame).header.frame_type
        types then do
      let (_, fr') ← Frame.parse pd md (md.frames.getD i defaultFrame)
      InsvMetadata.parseLoop pd types info_idx rest
        (md.set_frame i fr', trace ++ [i])
    else InsvMetadata.parseLoop pd types info_idx rest (md, trace)

/-- The `find_frame(INFO)`-then-parse step at the head of
`InsvMetadata.parse`: decode the first INFO frame, if any, before anything
else. Returns the updated model and the initial invocation trace. -/
def InsvMetadata.parseInfoFirst (pd : ProtoOracle) (md : InsvMetadata) :
    Option ℕ → Except String (InsvMetadata × List ℕ)
  | some j => do
    let (_, fr') ← Frame.parse pd md (md.frames.getD j defaultFrame)
    pure (md.set_frame j fr', [j])
  | none => pure (md, ([] : List ℕ))

/-- `InsvMetadata.parse`: the types to decode are the defaults plus the
optional extra set; the first INFO frame, if any, is parsed first,
unconditionally; then every frame of a requested type is parsed in
directory order. Returns the new model and the ghost invocation trace. -/
def InsvMetadata.parse (pd : ProtoOracle) (md : InsvMetadata)
    (include_types : List FrameType) :
    Except String (InsvMetadata × List ℕ) := do
  let s ← InsvMetadata.parseInfoFirst pd md md.findInfoIdx
  InsvMetadata.parseLoop pd (DEFAULT_PARSED_TYPES ++ include_types)
    md.findInfoIdx (List.range md.frames.length) s

/-- The `i`-th gyro record of a payload under record width `w` (`w ≥ 8`),
as `GyroFrame._parse_record` decodes it: the variant is chosen purely by
`w` (56 → six doubles, 20 → six shorts, otherwise the remaining `w - 8`
bytes raw). -/
def gyroRecordAt (payload : List ℕ) (w : ℕ) (i : ℕ) : RecordData :=
  if w = 56 then
    .gyroV1 (leSInt 8 (slice payload (w * i) 8))
      ((List.range 6).map
        (fun k => leUInt (slice payload (w * i + 8 + 8 * k) 8)))
  else if w = 20 then
    .gyroV2 (leSInt 8 (slice payload (w * i) 8))
      ((List.range 6).map
        (fun k => leSInt 2 (slice payload (w * i + 8 + 2 * k) 2)))
  else
    .gyroRaw (leSInt 8 (slice payload (w * i) 8))
      (slice payload (w * i + 8) (w - 8))

/-! ## Tiling predicates -/

/-- End of a frame's byte range under the claim's uniform formula
`position + size + 6`. -/
def Frame.endPlus6 (fr : Frame) : ℤ :=
  fr.header.frame_pos + fr.header.frame_size + FRAME_HEADER_SIZE

/-- Actual end of the bytes a frame accounts for: payload plus the 6-byte
trailing header for real frames, payload only for synthetic RAW fillers
(which have no header of their own). -/
def Frame.endActual (fr : Frame) : ℤ :=
  fr.header.frame_pos + fr.header.frame_size +
    (if fr.header.frame_type_code = FrameType.RAW.code then 0
     else FRAME_HEADER_SIZE)

/-- The byte range of a frame under an end function `e`. -/
def Frame.range (e : Frame → ℤ) (fr : Frame) : Set ℤ :=
  Set.Ico fr.header.frame_pos (e fr)

/-- Exact tiling of `[lo, hi)` by a list of frames in ascending file order:
each frame starts where the previous one ended. -/
def TilesAsc (e : Frame → ℤ) : List Frame → ℤ → ℤ → Prop
  | [], lo, hi => lo = hi
  | fr :: rest, lo, hi =>
    fr.header.frame_pos = lo ∧ TilesAsc e rest (e fr) hi

/-- Exact tiling of `[lo, hi)` by a list of frames in descending file
order (scan order): the first frame ends at `hi`, each next frame ends
where the previous one started. -/
def TilesDesc (e : Frame → ℤ) : List Frame → ℤ → ℤ → Prop
  | [], hi, lo => hi = lo
  | fr :: rest, hi, lo => e fr = hi ∧ TilesDesc e rest fr.header.frame_pos lo

/-- Set-level exact-tiling statement: the ranges are pairwise disjoint and
their union is exactly `[lo, hi)`. -/
def TilesRegion (e : Frame → ℤ) (frames : List Frame) (lo hi : ℤ) : Prop :=
  frames.Pairwise (fun a b => Disjoint (Frame.range e a) (Frame.range e b))
  ∧ (frames.map (Frame.range e)).foldr (· ∪ ·) ∅ = Set.Ico lo hi

/-! ## Concrete inputs used by witnesses and counterexamples -/

instance : Inhabited Frame := ⟨defaultFrame⟩

instance : Inhabited InsvMetadata := ⟨⟨⟨[], 0, 0, 0⟩, []⟩⟩

/-- A 100-byte INSV file: a THUMBNAIL frame at positions `[0, 8)`, a
4-byte unclaimed gap `[8, 12)`, an INDEX frame at `[12, 28)` whose single
table entry points at the THUMBNAIL frame, and the 72-byte footer
(`metadata_size = 100`, so the metadata region is the whole file). -/
def file100 : List ℕ :=
  [170, 170, 0, 2, 2, 0, 0, 0] ++ [187, 187, 187, 187]
  ++ [2, 0, 2, 0, 0, 0, 0, 0, 0, 0] ++ [0, 0, 10, 0, 0, 0]
  ++ List.replicate 32 0 ++ [100, 0, 0, 0] ++ [3, 0, 0, 0] ++ SIGNATURE

/-- The model built from `file100`. -/
def file100Md : InsvMetadata :=
  match InsvMetadata.read file100 with
  | .ok (some (md, _)) => md
  | _ => default

/-- An unparsed INDEX frame whose 20-byte payload holds an all-zero entry
followed by a non-zero entry (type 2, size 2, offset 0). -/
def c3Frame : Frame :=
  { header := ⟨0, 0, 20, 100⟩
    payload := List.replicate 10 0 ++ [2, 0, 2, 0, 0, 0, 0, 0, 0, 0] }

/-- An unparsed INDEX frame with a 23-byte payload. -/
def c9Frame : Frame :=
  { header := ⟨0, 0, 23, 0⟩, payload := List.replicate 23 0 }

/-- The 44-byte POS record buffer of the spec's worked example: timestamp 0
followed by the ten little-endian binary32 floats
`[1, 2, 3, 4, 5, 6, 3, 4, 0, 10]`. -/
def posBuf1 : List ℕ :=
  [0, 0, 0, 0] ++ [0, 0, 128, 63] ++ [0, 0, 0, 64] ++ [0, 0, 64, 64]
  ++ [0, 0, 128, 64] ++ [0, 0, 160, 64] ++ [0, 0, 192, 64]
  ++ [0, 0, 64, 64] ++ [0, 0, 128, 64] ++ [0, 0, 0, 0] ++ [0, 0, 32, 65]

/-- The same buffer with the last float replaced by `-1.0`. -/
def posBuf2 : List ℕ :=
  [0, 0, 0, 0] ++ [0, 0, 128, 63] ++ [0, 0, 0, 64] ++ [0, 0, 64, 64]
  ++ [0, 0, 128, 64] ++ [0, 0, 160, 64] ++ [0, 0, 192, 64]
  ++ [0, 0, 64, 64] ++ [0, 0, 128, 64] ++ [0, 0, 0, 0]
  ++ [0, 0, 128, 191]

/-- The type codes for which `Frame.read` constructs a decoding subclass;
every other code falls to the base `Frame`, whose `_parse_internal`
unconditionally returns false. -/
def handledCodes : List ℤ := [0, 1, 3, 4, 6, 7, 23]

/-- Oracle decoding every INFO payload to a present `Gyro` field of
56 bytes. -/
def oracle56 : ProtoOracle := fun _ => .ok ⟨true, 56⟩

/-- An already-decoded frame of a type with no decoder (THUMBNAIL). -/
def c6Frame : Frame :=
  { header := ⟨2, 0, 0, 0⟩, payload := [], parsed := true }

/-- A decoded INFO frame exposing a gyro record size of 5. -/
def c7Info : Frame :=
  { header := ⟨1, 1, 0, 100⟩, payload := [], parsed := true,
    gyro_data_size := 5 }

/-- A GYRO frame whose 5-byte payload is exactly one 5-byte record. -/
def c7Gyro : Frame :=
  { header := ⟨3, 0, 5, 0⟩, payload := [1, 2, 3, 4, 5] }

/-- Model holding `c7Info` and `c7Gyro`. -/
def c7Md : InsvMetadata := ⟨⟨[], 3, 0, 0⟩, [c7Info, c7Gyro]⟩

/-- A GYRO frame with the record-width cache already resolved to 20 and a
40-byte payload (two records). -/
def c7Cached : Frame :=
  { header := ⟨3, 0, 40, 0⟩, payload := List.replicate 40 7,
    record_size_value := 20 }

/-- A decoded INFO frame exposing a gyro record size of 56. -/
def c2Info : Frame :=
  { header := ⟨1, 1, 0, 100⟩, payload := [], parsed := true,
    gyro_data_size := 56 }

/-- A GYRO frame with a 56-byte payload. -/
def c2Gyro : Frame :=
  { header := ⟨3, 0, 56, 0⟩, payload := List.replicate 56 9 }

/-- Model with no INFO frame. -/
def c2MdNoInfo : InsvMetadata := ⟨⟨[], 3, 0, 0⟩, [c2Gyro]⟩

/-- Model with a decoded INFO frame of gyro size 56. -/
def c2MdInfo : InsvMetadata := ⟨⟨[], 3, 0, 0⟩, [c2Info, c2Gyro]⟩

/-- A frame with the unrecognized type code 99. -/
def c5Unknown : Frame := { header := ⟨99, 0, 0, 0⟩, payload := [] }

/-- An undecoded INFO frame (version 1, arbitrary payload). -/
def c5Info : Frame := { header := ⟨1, 1, 4, 10⟩, payload := [9, 9, 9, 9] }

/-- Model with an unknown-type frame before the INFO frame. -/
def c5Md : InsvMetadata := ⟨⟨[], 3, 0, 0⟩, [c5Unknown, c5Info]⟩

/-- Result of bulk-parsing `c5Md` with the MAGNETIC extra set under
`oracle56`. -/
def c5Parsed : InsvMetadata × List ℕ :=
  match InsvMetadata.parse oracle56 c5Md [.MAGNETIC] with
  | .ok s => s
  | .error _ => (default, [])

/-- The three frames of the directory built from `file100`. -/
def frameA : Frame := { header := ⟨2, 0, 2, 0⟩, payload := [170, 170] }

def frameGap : Frame :=
  { header := ⟨-1, 0, 4, 8⟩, payload := [187, 187, 187, 187] }

def frameIdx : Frame :=
  { header := ⟨0, 0, 10, 12⟩, payload := [2, 0, 2, 0, 0, 0, 0, 0, 0, 0],
    parsed := true, frames_index := [some ⟨2, 0, 2, 0⟩] }

/-! ## Helper lemmas -/

theorem slice_slice (f : List ℕ) (a m b k : ℕ) (h : b + k ≤ m) :
    slice (slice f a m) b k = slice f (a + b) k := by
  unfold slice
  rw [List.drop_take, List.drop_drop, List.take_take,
    min_eq_left (by omega)]

/-! ## C4: footer reading -/

/-- C4: reading the footer returns "no metadata" (`ok none`) exactly when
the source is shorter than 72 bytes or its last 32 bytes differ from the
magic constant; it raises the unsupported-version error exactly when the
magic matches but the 4-byte version field is not 3; and every successful
footer satisfies `metadata_pos + metadata_size = file_size`. -/
theorem C4_footer_read (f : List ℕ) :
    (InsvHeader.read f = .ok none ↔
      f.length < 72 ∨ slice f (f.length - 32) 32 ≠ SIGNATURE) ∧
    ((∃ e, InsvHeader.read f = .error e) ↔
      72 ≤ f.length ∧ slice f (f.length - 32) 32 = SIGNATURE ∧
        leUInt (slice f (f.length - 36) 4) ≠ 3) ∧
    (∀ h, InsvHeader.read f = .ok (some h) →
      h.metadata_pos + h.metadata_size = f.length) := by
  by_cases h1 : f.length < 72
  · have hread : InsvHeader.read f = .ok none := by
      simp [InsvHeader.read, HEADER_SIZE, h1]
    refine ⟨⟨fun _ => Or.inl h1, fun _ => hread⟩, ⟨?_, ?_⟩, ?_⟩
    · rintro ⟨e, he⟩; rw [hread] at he; cases he
    · rintro ⟨h72, -⟩; omega
    · intro h hh; rw [hread] at hh; cases hh
  · have e40 : slice (slice f (f.length - 72) 72) 40 32 =
        slice f (f.length - 32) 32 := by
      rw [slice_slice f (f.length - 72) 72 40 32 (by omega)]
      congr 1; omega
    have e36 : slice (slice f (f.length - 72) 72) 36 4 =
        slice f (f.length - 36) 4 := by
      rw [slice_slice f (f.length - 72) 72 36 4 (by omega)]
      congr 1; omega
    by_cases h2 : slice f (f.length - 32) 32 = SIGNATURE
    · by_cases h3 : leUInt (slice f (f.length - 36) 4) = 3
      · have hread : InsvHeader.read f = .ok (some
            ⟨slice (slice f (f.length - 72) 72) 0 32,
             leUInt (slice f (f.length - 36) 4),
             leUInt (slice (slice f (f.length - 72) 72) 32 4),
             (f.length : ℤ) -
               leUInt (slice (slice f (f.length - 72) 72) 32 4)⟩) := by
          simp [InsvHeader.read, HEADER_SIZE, h1, e40, e36, h2, h3]
        refine ⟨⟨?_, ?_⟩, ⟨?_, ?_⟩, ?_⟩
        · intro hh; rw [hread] at hh; cases hh
        · intro hh
          rcases hh with hh | hh
          · omega
          · exact absurd h2 hh
        · rintro ⟨e, he⟩; rw [hread] at he; cases he
        · rintro ⟨-, -, hv⟩; exact absurd h3 hv
        · intro h hh
          rw [hread] at hh
          injection hh with hh
          injection hh with hh
          subst hh
          simp
      · have hread : InsvHeader.read f =
            .error "Unsupported file version" := by
          simp [InsvHeader.read, HEADER_SIZE, h1, e40, e36, h2, h3]
        refine ⟨⟨?_, ?_⟩, ⟨?_, ?_⟩, ?_⟩
        · intro hh; rw [hread] at hh; cases hh
        · intro hh
          rcases hh with hh | hh
          · omega
          · exact absurd h2 hh
        · intro _; exact ⟨by omega, h2, h3⟩
        · intro _; exact ⟨_, hread⟩
        · intro h hh; rw [hread] at hh; cases hh
    · have hread : InsvHeader.read f = .ok none := by
        simp only [InsvHeader.read, HEADER_SIZE]
        rw [if_neg h1, e40]
        simp [h2]
      refine ⟨⟨fun _ => Or.inr h2, fun _ => hread⟩, ⟨?_, ?_⟩, ?_⟩
      · rintro ⟨e, he⟩; rw [hread] at he; cases he
      · rintro ⟨-, hs, -⟩; exact absurd hs h2
      · intro h hh; rw [hread] at hh; cases hh

/-- C4 witness: `file100` is 100 bytes long, carries the magic and version
3, and its footer satisfies the position/size identity. -/
theorem C4_footer_read_witness :
    file100Md.header.metadata_pos + file100Md.header.metadata_size =
      file100.length :=
  (C4_footer_read file100).2.2 file100Md.header rfl

/-! ## C9: malformed INDEX payload -/

/-- C9: decoding an INDEX frame whose payload length is not a multiple of
10 raises the structural-corruption error (so no partial entry table is
ever produced: the frame state is not updated and the `parsed` flag is
never set). -/
theorem C9_index_size_error (pd : ProtoOracle) (md : InsvMetadata)
    (fr : Frame) (hty : fr.header.frame_type = some .INDEX)
    (hp : fr.parsed = false) (hlen : fr.payload.length % 10 ≠ 0) :
    Frame.parse pd md fr = .error "Unexpected INDEX frame size" := by
  rw [Frame.parse, if_neg (by simp [hp])]
  rw [show Frame.parseInternal pd md fr =
      IndexFrame.parseInternal md.header.metadata_pos fr from by
    rw [Frame.parseInternal, hty]]
  rw [IndexFrame.parseInternal,
    if_pos (by simpa [INDEX_ENTRY_SIZE] using hlen)]
  rfl

/-- C9 witness: a 23-byte all-zero INDEX payload fails with the
structural-corruption error. -/
theorem C9_index_size_error_witness :
    c9Frame.header.frame_type = some .INDEX ∧ c9Frame.parsed = false ∧
      c9Frame.payload.length % 10 ≠ 0 ∧
      Frame.parse noProtoOracle default c9Frame =
        .error "Unexpected INDEX frame size" :=
  ⟨by decide, rfl, by decide,
    C9_index_size_error noProtoOracle default c9Frame (by decide) rfl
      (by decide)⟩

/-! ## C3: all-zero INDEX entries do not stop decoding -/

/-- C3 counterexample: decoding an INDEX payload holding an all-zero
10-byte entry followed by a non-zero entry produces a descriptor from the
entry after the all-zero one — the claim that decoding stops at the first
all-zero entry fails. -/
theorem C3_counterexample :
    (IndexFrame.parseInternal 0 c3Frame).map (fun p => p.2.frames_index) =
      .ok [none, some ⟨2, 0, 2, 0⟩] := by
  rfl

/-- C3 (amended): decoding an INDEX payload (length a multiple of 10) does
not stop at an all-zero entry: every 10-byte entry is decoded in order,
an entry whose type, version and size bytes are all zero yielding an
empty slot (`none`) and every other entry — including one after an
all-zero entry — yielding its descriptor. -/
theorem C3_index_entries (metadata_pos : ℤ) (fr : Frame)
    (hlen : fr.payload.length % 10 = 0) (hidx : fr.frames_index = []) :
    ∃ fr', IndexFrame.parseInternal metadata_pos fr = .ok (true, fr') ∧
      fr'.frames_index.length = fr.payload.length / 10 ∧
      (∀ i (hi : i < fr'.frames_index.length),
        fr'.frames_index[i] = FrameHeader.from_index_entry
          (slice fr.payload (10 * i) 10) metadata_pos) ∧
      (∀ entry_data mp,
        FrameHeader.from_index_entry entry_data mp = none ↔
          (entry_data.getD 0 0 = 0 ∧ entry_data.getD 1 0 = 0 ∧
            leUInt (slice entry_data 2 4) = 0)) := by
  have hparse : IndexFrame.parseInternal metadata_pos fr =
      .ok (true, { fr with frames_index := (fr.frames_index ++
                     (List.range (fr.payload.length / 10)).map
                       (fun i => FrameHeader.from_index_entry
                         (slice fr.payload (10 * i) 10) metadata_pos)) }) := by
    rw [IndexFrame.parseInternal,
      if_neg (by simpa [INDEX_ENTRY_SIZE] using hlen)]
    rfl
  refine ⟨_, hparse, ?_, ?_, ?_⟩
  · simp [hidx]
  · intro i hi
    simp only [hidx, List.nil_append] at hi ⊢
    simp only [List.getElem_map, List.getElem_range]
  · intro entry_data mp
    rw [FrameHeader.from_index_entry]
    constructor
    · intro h
      by_contra hc
      rw [if_neg (by tauto)] at h
      cases h
    · intro ⟨ha, hb, hc⟩
      rw [if_pos ⟨ha, hb, hc⟩]

/-- C3 witness: on the concrete two-entry payload the amended statement
produces a one-`none`, one-descriptor table. -/
theorem C3_index_entries_witness :
    ∃ fr', IndexFrame.parseInternal 0 c3Frame = .ok (true, fr') ∧
      fr'.frames_index.length = 2 :=
  match C3_index_entries 0 c3Frame (by decide) rfl with
  | ⟨fr', h1, h2, _, _⟩ => ⟨fr', h1, by rw [h2]; rfl⟩

/-! ## C6: decode idempotence and retry -/

/-- C6: invoking `parse` on an already-decoded frame returns success with
the frame unchanged; on a not-yet-decoded frame (in particular after a
prior failed attempt, which leaves the flag false) it re-runs the decode
from scratch, the resulting flag being exactly the decode's success. -/
theorem C6_parse_idempotent_retry (pd : ProtoOracle) (md : InsvMetadata)
    (fr : Frame) :
    (fr.parsed = true → Frame.parse pd md fr = .ok (true, fr)) ∧
    (fr.parsed = false → Frame.parse pd md fr =
      (Frame.parseInternal pd md fr).map
        (fun p => (p.1, { p.2 with parsed := p.1 }))) ∧
    (∀ b fr', Frame.parse pd md fr = .ok (b, fr') → fr'.parsed = b) := by
  refine ⟨?_, ?_, ?_⟩
  · intro h
    rw [Frame.parse, if_pos h]
  · intro h
    rw [Frame.parse, if_neg (by simp [h])]
    cases hpi : Frame.parseInternal pd md fr with
    | error e => simp [hpi, Except.map, Except.bind, Bind.bind]
    | ok p => cases p; simp [hpi, Except.map, Except.bind, Bind.bind]
  · intro b fr' h
    rw [Frame.parse] at h
    by_cases hp : fr.parsed
    · rw [if_pos hp] at h
      simp only [Except.ok.injEq, Prod.mk.injEq] at h
      obtain ⟨hb, hf⟩ := h
      rw [← hf, ← hb]
      exact hp
    · rw [if_neg hp] at h
      cases hpi : Frame.parseInternal pd md fr with
      | error e =>
        rw [hpi] at h
        simp [Except.bind, Bind.bind] at h
      | ok p =>
        rw [hpi] at h
        cases p with
        | mk b' fr'' =>
          simp only [Except.bind, Bind.bind, Except.ok.injEq,
            Prod.mk.injEq] at h
          obtain ⟨hb, hf⟩ := h
          rw [← hf, ← hb]

/-- C6 witness: on the decoded `c6Frame`, `parse` is a success no-op and
the flag equals the returned success; on the undecoded `c5Unknown`, it
equals a fresh run of the decode step. -/
theorem C6_parse_idempotent_retry_witness :
    Frame.parse noProtoOracle default c6Frame = .ok (true, c6Frame) ∧
    c6Frame.parsed = true ∧
    Frame.parse noProtoOracle default c5Unknown =
      (Frame.parseInternal noProtoOracle default c5Unknown).map
        (fun p => (p.1, { p.2 with parsed := p.1 })) :=
  ⟨(C6_parse_idempotent_retry noProtoOracle default c6Frame).1 rfl,
   (C6_parse_idempotent_retry noProtoOracle default c6Frame).2.2 true
     c6Frame
     ((C6_parse_idempotent_retry noProtoOracle default c6Frame).1 rfl),
   (C6_parse_idempotent_retry noProtoOracle default c5Unknown).2.1 rfl⟩

/-! ## C8: drone-position record -/

/-- C8: the spec's 44-byte example buffer decodes to
x=1, y=2, z=3, velocity_h=3, velocity_v=4, derived speed
`sqrt(3² + 4²) = 5.0`, with agl=10 included in the external
representation; the same buffer with the last float replaced by `-1.0`
omits `agl` from the external representation; and for every record whose
above-ground-level value is `≤ 0` the `agl` key is absent from the
external representation. -/
theorem C8_pos_record_example :
    (PosRecord.parse posBuf1 0).map PosRecord.to_dict =
      .ok ⟨0, 1, 2, 3, 3, 4, 5, some 10⟩ ∧
    (PosRecord.parse posBuf2 0).map PosRecord.to_dict =
      .ok ⟨0, 1, 2, 3, 3, 4, 5, none⟩ ∧
    (∀ r : PosRecord, r.agl ≤ 0 → r.to_dict.agl = none) := by
  have h1 : PosRecord.parse posBuf1 0 =
      .ok ⟨0, 1, 2, 3, 4, 5, 6, 3, 4, 0, 10⟩ := by
    norm_num [PosRecord.parse, posBuf1, decodeF32, leUInt, slice]
  have h2 : PosRecord.parse posBuf2 0 =
      .ok ⟨0, 1, 2, 3, 4, 5, 6, 3, 4, 0, -1⟩ := by
    norm_num [PosRecord.parse, posBuf2, decodeF32, leUInt, slice]
  have hsqrt : Real.sqrt (25 : ℝ) = 5 := by
    rw [show (25 : ℝ) = 5 ^ 2 by norm_num, Real.sqrt_sq (by norm_num)]
  refine ⟨?_, ?_, ?_⟩
  · rw [h1]
    simp only [Except.map, PosRecord.to_dict, PosRecord.speed,
      Except.ok.injEq, PosDict.mk.injEq]
    norm_num
    exact hsqrt
  · rw [h2]
    simp only [Except.map, PosRecord.to_dict, PosRecord.speed,
      Except.ok.injEq, PosDict.mk.injEq]
    norm_num
    exact hsqrt
  · intro r h
    rw [PosRecord.to_dict]
    exact if_neg (not_lt.mpr h)

/-- C8 witness for the universal clause, at the boundary value
`agl = 0` (the code's validity test is strictly `agl > 0`): the record
with all fields of the example but `agl = 0` omits the `agl` key. -/
theorem C8_pos_record_example_witness :
    (⟨0, 1, 2, 3, 4, 5, 6, 3, 4, 0, 0⟩ : PosRecord).agl ≤ 0 ∧
    (PosRecord.to_dict ⟨0, 1, 2, 3, 4, 5, 6, 3, 4, 0, 0⟩).agl = none :=
  ⟨by norm_num,
   C8_pos_record_example.2.2 ⟨0, 1, 2, 3, 4, 5, 6, 3, 4, 0, 0⟩
     (by norm_num)⟩

/-! ## Frame and list helper lemmas -/

theorem Frame.eta_parsed_false (fr : Frame) (h : fr.parsed = false) :
    { fr with parsed := false } = fr := by
  cases fr
  simp_all

theorem Frame.eta_record_size (fr : Frame) (x : ℕ)
    (h : fr.record_size_value = x) :
    { fr with record_size_value := x } = fr := by
  cases fr
  simp_all

theorem FrameType.code_from_code {c : ℤ} {ty : FrameType}
    (h : FrameType.from_code c = some ty) : ty.code = c := by
  rw [FrameType.from_code] at h
  have h2 := List.find?_some h
  simpa using h2

theorem getD_set_ne {α} (l : List α) (i j : ℕ) (a d : α) (h : i ≠ j) :
    (l.set i a).getD j d = l.getD j d := by
  rw [List.getD_eq_getElem?_getD, List.getElem?_set_ne h,
    ← List.getD_eq_getElem?_getD]

theorem set_getD_self {α} (l : List α) (i : ℕ) (d : α) :
    l.set i (l.getD i d) = l := by
  induction l generalizing i with
  | nil => rfl
  | cons a t ih =>
    cases i with
    | zero => rfl
    | succ n => simpa [List.set, List.getD] using ih n

theorem findIdx?_spec {α} (p : α → Bool) (l : List α) (d : α) :
    ∀ i j, List.findIdx? p l i = some j →
      i ≤ j ∧ j - i < l.length ∧ p (l.getD (j - i) d) = true := by
  induction l with
  | nil => intro i j h; cases h
  | cons a t ih =>
    intro i j h
    rw [List.findIdx?] at h
    by_cases hpa : p a
    · rw [if_pos hpa] at h
      injection h with h
      subst h
      simpa [List.getD] using hpa
    · rw [if_neg hpa] at h
      obtain ⟨h1, h2, h3⟩ := ih (i + 1) j h
      refine ⟨by omega, by simpa using by omega, ?_⟩
      rw [show j - i = (j - (i + 1)) + 1 from by omega]
      simpa [List.getD] using h3

/-- The decode dispatch sends every frame whose type code has no decoding
subclass to the base implementation, which does nothing and fails. -/
theorem parseInternal_unhandled (pd : ProtoOracle) (md : InsvMetadata)
    (fr : Frame) (h : fr.header.frame_type_code ∉ handledCodes) :
    Frame.parseInternal pd md fr = .ok (false, fr) := by
  cases hft : fr.header.frame_type with
  | none => rw [Frame.parseInternal, hft]
  | some ty =>
    have hc : ty.code = fr.header.frame_type_code :=
      FrameType.code_from_code hft
    rw [Frame.parseInternal, hft]
    cases ty
    case INDEX => exact absurd (hc ▸ (by decide : FrameType.INDEX.code ∈ handledCodes)) h
    case INFO => exact absurd (hc ▸ (by decide : FrameType.INFO.code ∈ handledCodes)) h
    case GYRO => exact absurd (hc ▸ (by decide : FrameType.GYRO.code ∈ handledCodes)) h
    case GPS => exact absurd (hc ▸ (by decide : FrameType.GPS.code ∈ handledCodes)) h
    case EXPOSURE => exact absurd (hc ▸ (by decide : FrameType.EXPOSURE.code ∈ handledCodes)) h
    case TIMELAPSE => exact absurd (hc ▸ (by decide : FrameType.TIMELAPSE.code ∈ handledCodes)) h
    case POS => exact absurd (hc ▸ (by decide : FrameType.POS.code ∈ handledCodes)) h
    all_goals rfl

/-- Unhandled type codes: `Frame.parse` fails softly, returning the frame
unchanged. -/
theorem parse_unhandled (pd : ProtoOracle) (md : InsvMetadata) (fr : Frame)
    (hcode : fr.header.frame_type_code ∉ handledCodes)
    (hp : fr.parsed = false) :
    Frame.parse pd md fr = .ok (false, fr) := by
  rw [Frame.parse, if_neg (by simp [hp]), parseInternal_unhandled pd md fr hcode]
  show (Except.ok (false, { fr with parsed := false }) :
    Except String (Bool × Frame)) = .ok (false, fr)
  rw [Frame.eta_parsed_false fr hp]

/-! ## Bulk-parse loop lemmas -/

theorem parseLoop_trace (pd : ProtoOracle) (types : List FrameType)
    (info_idx : Option ℕ) :
    ∀ (idxs : List ℕ) (md : InsvMetadata) (tr : List ℕ) res,
      InsvMetadata.parseLoop pd types info_idx idxs (md, tr) = .ok res →
      ∃ ext, res.2 = tr ++ ext := by
  intro idxs
  induction idxs with
  | nil =>
    intro md tr res h
    injection h with h
    exact ⟨[], by simp [← h]⟩
  | cons i rest ih =>
    intro md tr res h
    rw [InsvMetadata.parseLoop] at h
    by_cases hi : info_idx = some i
    · rw [if_pos hi] at h
      exact ih md tr res h
    · rw [if_neg hi] at h
      by_cases ht : typeIn (md.frames.getD i defaultFrame).header.frame_type
          types
      · rw [if_pos ht] at h
        cases hp : Frame.parse pd md (md.frames.getD i defaultFrame) with
        | error e => rw [hp] at h; cases h
        | ok p =>
          rw [hp] at h
          cases p with
          | mk b fr' =>
            obtain ⟨ext, hext⟩ := ih _ _ res h
            exact ⟨i :: ext, by simp [hext]⟩
      · rw [if_neg ht] at h
        exact ih md tr res h

theorem parseLoop_preserve (pd : ProtoOracle) (types : List FrameType)
    (info_idx : Option ℕ) :
    ∀ (idxs : List ℕ) (md : InsvMetadata) (tr : List ℕ) res (t : ℕ),
      InsvMetadata.parseLoop pd types info_idx idxs (md, tr) = .ok res →
      ((∀ ty, (md.frames.getD t defaultFrame).header.frame_type = some ty →
          ty ∉ types) ∨
        ((md.frames.getD t defaultFrame).header.frame_type_code ∉
            handledCodes ∧
          (md.frames.getD t defaultFrame).parsed = false)) →
      res.1.frames.getD t defaultFrame = md.frames.getD t defaultFrame := by
  intro idxs
  induction idxs with
  | nil =>
    intro md tr res t h _
    injection h with h
    rw [← h]
  | cons i rest ih =>
    intro md tr res t h hcond
    rw [InsvMetadata.parseLoop] at h
    by_cases hi : info_idx = some i
    · rw [if_pos hi] at h
      exact ih md tr res t h hcond
    · rw [if_neg hi] at h
      by_cases ht : typeIn (md.frames.getD i defaultFrame).header.frame_type
          types
      · rw [if_pos ht] at h
        by_cases hit : i = t
        · subst hit
          rcases hcond with hc1 | hc2
          · exfalso
            cases hft : (md.frames.getD i defaultFrame).header.frame_type with
            | none =>
              rw [typeIn.eq_def, hft] at ht
              simp at ht
            | some ty =>
              rw [typeIn.eq_def, hft] at ht
              simp at ht
              exact (hc1 ty hft) ht
          · have hparse : Frame.parse pd md
                (md.frames.getD i defaultFrame) =
                .ok (false, md.frames.getD i defaultFrame) :=
              parse_unhandled pd md _ hc2.1 hc2.2
            rw [hparse] at h
            have hmd : md.set_frame i (md.frames.getD i defaultFrame) =
                md := by
              cases md
              rw [InsvMetadata.set_frame]
              congr 1
              exact set_getD_self _ _ _
            have h' : InsvMetadata.parseLoop pd types info_idx rest
                (md, tr ++ [i]) = .ok res := by
              rw [← hmd]
              exact h
            exact ih md _ res _ h' (Or.inr hc2)
        · cases hp : Frame.parse pd md (md.frames.getD i defaultFrame) with
          | error e => rw [hp] at h; cases h
          | ok p =>
            rw [hp] at h
            cases p with
            | mk b fr' =>
              have hget : (md.set_frame i fr').frames.getD t
                  defaultFrame = md.frames.getD t defaultFrame := by
                simp only [InsvMetadata.set_frame]
                exact getD_set_ne _ i t _ _ hit
              have := ih (md.set_frame i fr') _ res t h
                (by rw [hget]; exact hcond)
              rw [hget] at this
              exact this
      · rw [if_neg ht] at h
        exact ih md tr res t h hcond

/-! ## C10: frames without a decoding subclass -/

/-- C10: a frame whose type code is not one of INDEX(0), INFO(1), GYRO(3),
EXPOSURE(4), TIMELAPSE(6), GPS(7) or POS(23) — which includes the opt-in
codes MAGNETIC, EULER, GYRO_SECONDARY, SPEED, HEARTRATE and
EXPOSURE_SECONDARY — is dispatched to the base frame class, so `parse`
returns false and leaves the frame (flag, records) unchanged; and after a
bulk parse with any extra set, every such initially-undecoded frame in the
model is left exactly as it was. -/
theorem C10_unhandled_types (pd : ProtoOracle) (md : InsvMetadata)
    (fr : Frame) (hcode : fr.header.frame_type_code ∉ handledCodes)
    (hp : fr.parsed = false) :
    Frame.parse pd md fr = .ok (false, fr) ∧
    (∀ extra md' tr, InsvMetadata.parse pd md extra = .ok (md', tr) →
      ∀ t, (md.frames.getD t defaultFrame).header.frame_type_code ∉
          handledCodes →
        (md.frames.getD t defaultFrame).parsed = false →
        md'.frames.getD t defaultFrame = md.frames.getD t defaultFrame) := by
  constructor
  · exact parse_unhandled pd md fr hcode hp
  · intro extra md' tr h t hc hf
    simp only [InsvMetadata.parse] at h
    cases hj : md.findInfoIdx with
    | none =>
      rw [hj] at h
      simp only [InsvMetadata.parseInfoFirst] at h
      exact parseLoop_preserve pd _ none _ md [] (md', tr) t h
        (Or.inr ⟨hc, hf⟩)
    | some j =>
      rw [hj] at h
      simp only [InsvMetadata.parseInfoFirst] at h
      have hj' : List.findIdx?
          (fun fr => fr.header.frame_type = some FrameType.INFO)
          md.frames = some j := by
        rw [InsvMetadata.findInfoIdx] at hj
        exact hj
      have hjt : t ≠ j := by
        intro heq
        subst heq
        have hspec := findIdx?_spec
          (fun fr => fr.header.frame_type = some FrameType.INFO)
          md.frames defaultFrame 0 t hj'
        have hinfo : (md.frames.getD t defaultFrame).header.frame_type =
            some FrameType.INFO := by
          have := hspec.2.2
          simpa using this
        have : (md.frames.getD t defaultFrame).header.frame_type_code =
            (1 : ℤ) := by
          have := FrameType.code_from_code hinfo
          simpa [FrameType.code] using this.symm
        rw [this] at hc
        exact hc (by decide)
      cases hp2 : Frame.parse pd md (md.frames.getD j defaultFrame) with
      | error e =>
        rw [hp2] at h
        simp [Except.bind, Bind.bind] at h
      | ok p =>
        rw [hp2] at h
        cases p with
        | mk b frj =>
          have hget : (md.set_frame j frj).frames.getD t defaultFrame =
              md.frames.getD t defaultFrame := by
            simp only [InsvMetadata.set_frame]
            exact getD_set_ne _ j t _ _ (fun he => hjt he.symm)
          have hpres := parseLoop_preserve pd _ (some j) _
            (md.set_frame j frj) [j] (md', tr) t h
            (by rw [hget]; exact Or.inr ⟨hc, hf⟩)
          rw [hget] at hpres
          exact hpres

/-- C10 witness: the unknown-code frame `c5Unknown` parses to a soft
failure, and bulk-parsing `c5Md` with the MAGNETIC extra set leaves it
untouched at index 0. -/
theorem C10_unhandled_types_witness :
    Frame.parse oracle56 c5Md c5Unknown = .ok (false, c5Unknown) ∧
    c5Parsed.1.frames.getD 0 defaultFrame =
      c5Md.frames.getD 0 defaultFrame :=
  ⟨(C10_unhandled_types oracle56 c5Md c5Unknown (by decide) rfl).1,
   (C10_unhandled_types oracle56 c5Md c5Unknown (by decide) rfl).2
     [.MAGNETIC] c5Parsed.1 c5Parsed.2 rfl 0 (by decide) rfl⟩

/-! ## Record-loop lemmas -/

theorem recordLoop_eq (pr : List ℕ → ℕ → Except String RecordData)
    (g : ℕ → RecordData) (payload : List ℕ) (rs : ℕ) (hrs : 0 < rs)
    (hpr : ∀ off, off + rs ≤ payload.length → pr payload off = .ok (g off)) :
    ∀ fuel offset, offset ≤ payload.length →
      payload.length + 1 - offset ≤ fuel →
      recordLoop pr payload rs offset fuel =
        .ok ((List.range ((payload.length - offset) / rs)).map
          (fun i => g (offset + rs * i))) := by
  intro fuel
  induction fuel with
  | zero => intro offset h1 h2; omega
  | succ n ih =>
    intro offset h1 h2
    rw [recordLoop]
    by_cases hle : offset + rs ≤ payload.length
    · rw [if_pos hle, hpr offset hle,
        ih (offset + rs) (by omega) (by omega)]
      have harith : (payload.length - offset) / rs =
          (payload.length - (offset + rs)) / rs + 1 := by
        have hsub : payload.length - (offset + rs) =
            payload.length - offset - rs := by omega
        rw [hsub, Nat.div_eq_sub_div hrs (by omega)]
      have hfun : (fun i => g (offset + rs * i)) ∘ Nat.succ =
          fun i => g (offset + rs + rs * i) := by
        funext i
        simp only [Function.comp_apply]
        congr 1
        rw [Nat.mul_succ]
        omega
      rw [harith, List.range_succ_eq_map, List.map_cons, List.map_map,
        hfun]
      show Except.ok (g offset ::
        (List.range ((payload.length - (offset + rs)) / rs)).map
          (fun i => g (offset + rs + rs * i))) = _
      norm_num
    · rw [if_neg hle, Nat.div_eq_of_lt (by omega)]
      rfl

theorem recordLoop_total (pr : List ℕ → ℕ → Except String RecordData)
    (payload : List ℕ) (rs : ℕ) (hrs : 0 < rs)
    (hpr : ∀ off, off + rs ≤ payload.length →
      ∃ r, pr payload off = .ok r) :
    ∀ fuel offset, offset ≤ payload.length →
      payload.length + 1 - offset ≤ fuel →
      ∃ recs, recordLoop pr payload rs offset fuel = .ok recs ∧
        recs.length = (payload.length - offset) / rs := by
  intro fuel
  induction fuel with
  | zero => intro offset h1 h2; omega
  | succ n ih =>
    intro offset h1 h2
    rw [recordLoop]
    by_cases hle : offset + rs ≤ payload.length
    · obtain ⟨r, hr⟩ := hpr offset hle
      obtain ⟨recs, hrecs, hlen⟩ := ih (offset + rs) (by omega) (by omega)
      rw [if_pos hle, hr, hrecs]
      refine ⟨r :: recs, rfl, ?_⟩
      rw [List.length_cons, hlen]
      have hsub : payload.length - (offset + rs) =
          payload.length - offset - rs := by omega
      rw [hsub,
        @Nat.div_eq_sub_div rs (payload.length - offset) hrs (by omega)]
    · rw [if_neg hle, Nat.div_eq_of_lt (by omega)]
      exact ⟨[], rfl, rfl⟩

/-- The second component of `GyroFrame.record_size` only (possibly) updates
the cache field. -/
theorem gyro_record_size_snd (md : InsvMetadata) (fr : Frame) :
    ∃ rsv, (GyroFrame.record_size md fr).2 =
      { fr with record_size_value := rsv } := by
  rw [GyroFrame.record_size]
  split
  · exact ⟨fr.record_size_value, by cases fr; rfl⟩
  · split
    · exact ⟨fr.record_size_value, by cases fr; rfl⟩
    · split
      · exact ⟨fr.record_size_value, by cases fr; rfl⟩
      · exact ⟨_, rfl⟩

/-- The dispatch arm for GYRO frames. -/
theorem parseInternal_gyro (pd : ProtoOracle) (md : InsvMetadata)
    (fr : Frame) (hty : fr.header.frame_type = some .GYRO) :
    Frame.parseInternal pd md fr =
      timestampedParseInternal
        (fun d o => GyroFrame.parse_record d o
          (GyroFrame.record_size md fr).1)
        (GyroFrame.record_size md fr).1 (GyroFrame.record_size md fr).2 := by
  rw [Frame.parseInternal, hty]

/-- The dispatch arm for INDEX frames. -/
theorem parseInternal_index (pd : ProtoOracle) (md : InsvMetadata)
    (fr : Frame) (hty : fr.header.frame_type = some .INDEX) :
    Frame.parseInternal pd md fr =
      IndexFrame.parseInternal md.header.metadata_pos fr := by
  rw [Frame.parseInternal, hty]

/-- The dispatch arm for INFO frames. -/
theorem parseInternal_info (pd : ProtoOracle) (md : InsvMetadata)
    (fr : Frame) (hty : fr.header.frame_type = some .INFO) :
    Frame.parseInternal pd md fr = InfoFrame.parseInternal pd fr := by
  rw [Frame.parseInternal, hty]

/-- The dispatch arm for GPS frames. -/
theorem parseInternal_gps (pd : ProtoOracle) (md : InsvMetadata)
    (fr : Frame) (hty : fr.header.frame_type = some .GPS) :
    Frame.parseInternal pd md fr =
      timestampedParseInternal GpsRecord.parse GpsRecord.SIZE fr := by
  rw [Frame.parseInternal, hty]

/-- The dispatch arm for EXPOSURE frames. -/
theorem parseInternal_exposure (pd : ProtoOracle) (md : InsvMetadata)
    (fr : Frame) (hty : fr.header.frame_type = some .EXPOSURE) :
    Frame.parseInternal pd md fr =
      timestampedParseInternal ExposureRecord.parse ExposureRecord.SIZE
        fr := by
  rw [Frame.parseInternal, hty]

/-- The dispatch arm for TIMELAPSE frames. -/
theorem parseInternal_timelapse (pd : ProtoOracle) (md : InsvMetadata)
    (fr : Frame) (hty : fr.header.frame_type = some .TIMELAPSE) :
    Frame.parseInternal pd md fr =
      timestampedParseInternal TimelapseRecord.parse TimelapseRecord.SIZE
        fr := by
  rw [Frame.parseInternal, hty]

/-- The dispatch arm for POS frames. -/
theorem parseInternal_pos (pd : ProtoOracle) (md : InsvMetadata)
    (fr : Frame) (hty : fr.header.frame_type = some .POS) :
    Frame.parseInternal pd md fr =
      timestampedParseInternal
        (fun d o => (PosRecord.parse d o).map RecordData.pos)
        PosRecord.SIZE fr := by
  rw [Frame.parseInternal, hty]

/-- Per-offset gyro record decoding for a width `w ≥ 8` succeeds with the
variant selected purely by `w`. -/
theorem gyro_parse_record_ok (payload : List ℕ) (w off : ℕ) (hw : 8 ≤ w)
    (hoff : off + w ≤ payload.length) :
    GyroFrame.parse_record payload off w =
      .ok (if w = 56 then
        .gyroV1 (leSInt 8 (slice payload off 8))
          ((List.range 6).map
            (fun k => leUInt (slice payload (off + 8 + 8 * k) 8)))
      else if w = 20 then
        .gyroV2 (leSInt 8 (slice payload off 8))
          ((List.range 6).map
            (fun k => leSInt 2 (slice payload (off + 8 + 2 * k) 2)))
      else
        .gyroRaw (leSInt 8 (slice payload off 8))
          (slice payload (off + 8) (w - 8))) := by
  rw [GyroFrame.parse_record]
  by_cases h56 : w = 56
  · subst h56
    rw [if_pos (by rfl), GyroV1Record.parse,
      if_neg (by omega),
      if_neg (by simp only [TS_SIZE]; omega)]
    simp [TS_SIZE]
  · by_cases h20 : w = 20
    · subst h20
      rw [if_neg (by simp [GyroV1Record.SIZE, TS_SIZE]),
        if_pos (by rfl), GyroV2Record.parse,
        if_neg (by omega),
        if_neg (by simp only [TS_SIZE]; omega)]
      simp [TS_SIZE, h56]
    · rw [if_neg (by simp [GyroV1Record.SIZE, TS_SIZE]; omega),
        if_neg (by simp [GyroV2Record.SIZE, TS_SIZE]; omega),
        GyroRawRecord.parse, if_neg (by omega)]
      simp [TS_SIZE, h56, h20]

/-- Core decode behaviour of a GYRO frame with resolved width `w ≥ 8`:
success, with exactly `⌊payload/w⌋` records of the variant selected by
`w` appended. -/
theorem gyro_parse_records (pd : ProtoOracle) (md : InsvMetadata)
    (fr : Frame) (w : ℕ) (hty : fr.header.frame_type = some .GYRO)
    (hp : fr.parsed = false)
    (hsize : (GyroFrame.record_size md fr).1 = w) (hw : 8 ≤ w) :
    Frame.parse pd md fr = .ok (true,
      { fr with
        record_size_value := (GyroFrame.record_size md fr).2.record_size_value
        records := fr.records ++
          (List.range (fr.payload.length / w)).map
            (gyroRecordAt fr.payload w)
        parsed := true }) := by
  obtain ⟨rsv, hsnd⟩ := gyro_record_size_snd md fr
  have hpair : GyroFrame.record_size md fr =
      (w, { fr with record_size_value := rsv }) := by
    rw [← hsize, ← hsnd]
  have hpr : ∀ off, off + w ≤ fr.payload.length →
      GyroFrame.parse_record fr.payload off w =
        .ok (if w = 56 then
          .gyroV1 (leSInt 8 (slice fr.payload off 8))
            ((List.range 6).map
              (fun k => leUInt (slice fr.payload (off + 8 + 8 * k) 8)))
        else if w = 20 then
          .gyroV2 (leSInt 8 (slice fr.payload off 8))
            ((List.range 6).map
              (fun k => leSInt 2 (slice fr.payload (off + 8 + 2 * k) 2)))
        else
          .gyroRaw (leSInt 8 (slice fr.payload off 8))
            (slice fr.payload (off + 8) (w - 8))) :=
    fun off hoff => gyro_parse_record_ok fr.payload w off hw hoff
  have hloop := recordLoop_eq (fun d o => GyroFrame.parse_record d o w)
    _ fr.payload w (by omega) hpr (fr.payload.length + 1) 0 (by omega)
    (by omega)
  have hmap : (List.range ((fr.payload.length - 0) / w)).map
      (fun i => (if w = 56 then
        RecordData.gyroV1 (leSInt 8 (slice fr.payload (0 + w * i) 8))
          ((List.range 6).map
            (fun k => leUInt (slice fr.payload (0 + w * i + 8 + 8 * k) 8)))
      else if w = 20 then
        RecordData.gyroV2 (leSInt 8 (slice fr.payload (0 + w * i) 8))
          ((List.range 6).map
            (fun k => leSInt 2 (slice fr.payload (0 + w * i + 8 + 2 * k) 2)))
      else
        RecordData.gyroRaw (leSInt 8 (slice fr.payload (0 + w * i) 8))
          (slice fr.payload (0 + w * i + 8) (w - 8)))) =
      (List.range (fr.payload.length / w)).map
        (gyroRecordAt fr.payload w) := by
    simp only [Nat.zero_add, Nat.sub_zero]
    congr 1
  have htsp : timestampedParseInternal
      (fun d o => GyroFrame.parse_record d o w) w
      { fr with record_size_value := rsv } = .ok (true,
        { fr with
          record_size_value := rsv
          records := fr.records ++
            (List.range (fr.payload.length / w)).map
              (gyroRecordAt fr.payload w) }) := by
    rw [timestampedParseInternal, if_neg (by omega)]
    have hproj : ({ fr with record_size_value := rsv } : Frame).payload =
        fr.payload := rfl
    rw [hproj, hloop, hmap]
    rfl
  rw [Frame.parse, if_neg (by simp [hp]),
    parseInternal_gyro pd md fr hty, hpair]
  have hfst : ((w, { fr with record_size_value := rsv }) : ℕ × Frame).1 =
      w := rfl
  have hsnd2 : ((w, { fr with record_size_value := rsv }) : ℕ × Frame).2 =
      { fr with record_size_value := rsv } := rfl
  rw [hfst, hsnd2, htsp]
  rfl

/-- Characterization of `GyroFrame._record_size` with an unset cache. -/
theorem gyro_record_size_eq (md : InsvMetadata) (fr : Frame)
    (hcache : fr.record_size_value = 0) :
    GyroFrame.record_size md fr =
      match md.find_frame .INFO with
      | none => (0, fr)
      | some info =>
        if info.parsed = false then (0, fr)
        else (info.gyro_data_size,
          { fr with record_size_value := info.gyro_data_size }) := by
  rw [GyroFrame.record_size, if_neg (by simp [hcache])]
  rfl

/-- The resolved record width as a scalar. -/
theorem gyro_record_size_fst (md : InsvMetadata) (fr : Frame) :
    (GyroFrame.record_size md fr).1 =
      if 0 < fr.record_size_value then fr.record_size_value
      else match md.find_frame .INFO with
        | none => 0
        | some info =>
          if info.parsed = false then 0 else info.gyro_data_size := by
  rw [GyroFrame.record_size]
  by_cases h1 : 0 < fr.record_size_value
  · rw [if_pos h1, if_pos h1]
  · rw [if_neg h1, if_neg h1]
    cases hfind : md.find_frame .INFO with
    | none => rfl
    | some info =>
      by_cases hc : info.parsed = false
      · show (if info.parsed = false then ((0 : ℕ), fr)
          else (InfoFrame.get_gyro_record_size info,
            { fr with record_size_value :=
                InfoFrame.get_gyro_record_size info })).1 =
          (if info.parsed = false then 0 else info.gyro_data_size)
        rw [if_pos hc, if_pos hc]
      · show (if info.parsed = false then ((0 : ℕ), fr)
          else (InfoFrame.get_gyro_record_size info,
            { fr with record_size_value :=
                InfoFrame.get_gyro_record_size info })).1 =
          (if info.parsed = false then 0 else info.gyro_data_size)
        rw [if_neg hc, if_neg hc]
        rfl

/-! ## C2: the GYRO/INFO cross-frame dependency -/

/-- C2: with a fresh GYRO frame (flag false, cache unset), if the INFO
frame is absent, undecoded, or exposes gyro length 0, `parse` returns
false with no error and the frame unchanged (zero records, flag false);
if the INFO frame is decoded with resolved width 56 or 20 and the payload
holds at least one record, the retry succeeds with non-empty records. -/
theorem C2_gyro_dependency (pd : ProtoOracle) (md : InsvMetadata)
    (fr : Frame) (hty : fr.header.frame_type = some .GYRO)
    (hp : fr.parsed = false) (hcache : fr.record_size_value = 0) :
    ((md.find_frame .INFO = none ∨
      (∃ info, md.find_frame .INFO = some info ∧ info.parsed = false) ∨
      (∃ info, md.find_frame .INFO = some info ∧ info.parsed = true ∧
        info.gyro_data_size = 0)) →
      Frame.parse pd md fr = .ok (false, fr)) ∧
    (∀ info w, md.find_frame .INFO = some info → info.parsed = true →
      info.gyro_data_size = w → (w = 56 ∨ w = 20) →
      w ≤ fr.payload.length →
      ∃ fr', Frame.parse pd md fr = .ok (true, fr') ∧ fr'.parsed = true ∧
        fr'.records ≠ []) := by
  constructor
  · intro hcase
    have hsize : GyroFrame.record_size md fr = (0, fr) := by
      rw [gyro_record_size_eq md fr hcache]
      rcases hcase with h | ⟨info, hfind, hparsed⟩ |
        ⟨info, hfind, hparsed, hzero⟩
      · rw [h]
      · rw [hfind]
        show (if info.parsed = false then ((0 : ℕ), fr)
          else (info.gyro_data_size,
            { fr with record_size_value := info.gyro_data_size })) =
          (0, fr)
        rw [if_pos hparsed]
      · rw [hfind]
        show (if info.parsed = false then ((0 : ℕ), fr)
          else (info.gyro_data_size,
            { fr with record_size_value := info.gyro_data_size })) =
          (0, fr)
        rw [if_neg (by simp [hparsed]), hzero,
          Frame.eta_record_size fr 0 hcache]
    rw [Frame.parse, if_neg (by simp [hp]),
      parseInternal_gyro pd md fr hty, hsize]
    show (Except.ok (false, { fr with parsed := false }) :
      Except String (Bool × Frame)) = .ok (false, fr)
    rw [Frame.eta_parsed_false fr hp]
  · intro info w hfind hparsed hgsize hw hlen
    have hfst : (GyroFrame.record_size md fr).1 = w := by
      rw [gyro_record_size_fst md fr, if_neg (by simp [hcache]), hfind]
      show (if info.parsed = false then 0 else info.gyro_data_size) = w
      rw [if_neg (by simp [hparsed]), hgsize]
    have h8 : 8 ≤ w := by rcases hw with h | h <;> omega
    have h1 := gyro_parse_records pd md fr w hty hp hfst h8
    refine ⟨_, h1, rfl, ?_⟩
    show fr.records ++
      (List.range (fr.payload.length / w)).map
        (gyroRecordAt fr.payload w) ≠ []
    have hpos : 0 < fr.payload.length / w :=
      Nat.div_pos hlen (by omega)
    intro hnil
    rw [List.append_eq_nil] at hnil
    have := congrArg List.length hnil.2
    simp only [List.length_map, List.length_range,
      List.length_nil] at this
    omega

/-- C2 witness: the concrete GYRO frame fails softly with no INFO frame in
the model, and succeeds with non-empty records once a decoded INFO frame
exposing width 56 is present. -/
theorem C2_gyro_dependency_witness :
    Frame.parse noProtoOracle c2MdNoInfo c2Gyro = .ok (false, c2Gyro) ∧
    ∃ fr', Frame.parse noProtoOracle c2MdInfo c2Gyro = .ok (true, fr') ∧
      fr'.parsed = true ∧ fr'.records ≠ [] :=
  ⟨(C2_gyro_dependency noProtoOracle c2MdNoInfo c2Gyro (by decide) rfl
      rfl).1 (Or.inl rfl),
   (C2_gyro_dependency noProtoOracle c2MdInfo c2Gyro (by decide) rfl
      rfl).2 c2Info 56 rfl rfl rfl (Or.inl rfl) (by decide)⟩

/-! ## C7: gyro record variants -/

/-- C7 counterexample: with resolved record width 5 (> 0, as the claim
requires) and a 5-byte payload, the decode does not produce
`⌊5/5⌋ = 1` record — it raises a struct error while reading the 8-byte
timestamp beyond the payload end. -/
theorem C7_gyro_variants_counterexample :
    (GyroFrame.record_size c7Md c7Gyro).1 = 5 ∧
    Frame.parse noProtoOracle c7Md c7Gyro = .error "struct.error" :=
  ⟨rfl, rfl⟩

/-- C7 (amended to widths `w ≥ 8`; for `0 < w < 8` the decode raises a
struct error instead, see the counterexample): for a fresh GYRO frame
with resolved width `w ≥ 8`, decoding succeeds with exactly
`⌊payload/w⌋` records (any partial tail dropped), the variant chosen
purely by `w` (56 → timestamp + six little-endian doubles, 20 →
timestamp + six little-endian signed shorts, otherwise timestamp + the
remaining `w - 8` bytes raw), and the gyro frame's own version byte plays
no role in the decoded records. -/
theorem C7_gyro_variants (pd : ProtoOracle) (md : InsvMetadata)
    (fr : Frame) (w : ℕ) (hty : fr.header.frame_type = some .GYRO)
    (hp : fr.parsed = false) (hrec : fr.records = [])
    (hsize : (GyroFrame.record_size md fr).1 = w) (hw : 8 ≤ w) :
    ∃ fr', Frame.parse pd md fr = .ok (true, fr') ∧
      fr'.records = (List.range (fr.payload.length / w)).map
        (gyroRecordAt fr.payload w) ∧
      fr'.records.length = fr.payload.length / w ∧
      (∀ v, ∃ fr'', Frame.parse pd md
          { fr with header := { fr.header with frame_version := v } } =
            .ok (true, fr'') ∧
        fr''.records = fr'.records) := by
  have h1 := gyro_parse_records pd md fr w hty hp hsize hw
  refine ⟨_, h1, ?_, ?_, ?_⟩
  · show fr.records ++
      (List.range (fr.payload.length / w)).map
        (gyroRecordAt fr.payload w) = _
    rw [hrec, List.nil_append]
  · show (fr.records ++
      (List.range (fr.payload.length / w)).map
        (gyroRecordAt fr.payload w)).length = _
    rw [hrec, List.nil_append, List.length_map, List.length_range]
  · intro v
    have htyv : ({ fr with
        header := { fr.header with frame_version := v } } :
          Frame).header.frame_type = some .GYRO := hty
    have hrsv : ({ fr with
        header := { fr.header with frame_version := v } } :
          Frame).record_size_value = fr.record_size_value := rfl
    have hsizev : (GyroFrame.record_size md
        { fr with header := { fr.header with frame_version := v } }).1 =
          w := by
      rw [gyro_record_size_fst, hrsv, ← gyro_record_size_fst md fr]
      exact hsize
    exact ⟨_, gyro_parse_records pd md _ w htyv hp hsizev hw, rfl⟩

/-- C7 witness: a GYRO frame with cached width 20 and a 40-byte payload
decodes to exactly two records. -/
theorem C7_gyro_variants_witness :
    ∃ fr', Frame.parse noProtoOracle default c7Cached = .ok (true, fr') ∧
      fr'.records.length = 2 :=
  match C7_gyro_variants noProtoOracle default c7Cached 20 (by decide)
      rfl rfl rfl (by omega) with
  | ⟨fr', hparse, _, hlen, _⟩ => ⟨fr', hparse, by rw [hlen]; decide⟩

/-! ## C5: bulk-parse policy -/

/-- C5: in a bulk parse with any extra type set, the INFO frame present in
the model is the first frame on which decode is invoked (the invocation
trace starts with its index, whatever the requested set), and every frame
whose type is outside `default ∪ extra` is left untouched — payload
identical and decoded flag still false if it was false. -/
theorem C5_bulk_parse (pd : ProtoOracle) (md : InsvMetadata)
    (extra : List FrameType) (j : ℕ) (hj : md.findInfoIdx = some j) :
    ∀ md' tr, InsvMetadata.parse pd md extra = .ok (md', tr) →
      tr.head? = some j ∧
      ∀ i, (∀ t, (md.frames.getD i defaultFrame).header.frame_type =
          some t → t ∉ DEFAULT_PARSED_TYPES ++ extra) →
        md'.frames.getD i defaultFrame = md.frames.getD i defaultFrame ∧
        ((md.frames.getD i defaultFrame).parsed = false →
          (md'.frames.getD i defaultFrame).parsed = false) := by
  intro md' tr h
  simp only [InsvMetadata.parse] at h
  rw [hj] at h
  simp only [InsvMetadata.parseInfoFirst] at h
  cases hp2 : Frame.parse pd md (md.frames.getD j defaultFrame) with
  | error e =>
    rw [hp2] at h
    simp [Except.bind, Bind.bind] at h
  | ok p =>
    rw [hp2] at h
    cases p with
    | mk b frj =>
      constructor
      · obtain ⟨ext, hext⟩ := parseLoop_trace pd
          (DEFAULT_PARSED_TYPES ++ extra) (some j)
          (List.range md.frames.length) (md.set_frame j frj) [j]
          (md', tr) h
        have htr : tr = [j] ++ ext := hext
        rw [htr]
        rfl
      · intro i hout
        have hj' : List.findIdx?
            (fun fr => fr.header.frame_type = some FrameType.INFO)
            md.frames = some j := by
          rw [InsvMetadata.findInfoIdx] at hj
          exact hj
        have hinfo : (md.frames.getD j defaultFrame).header.frame_type =
            some .INFO := by
          have hspec := findIdx?_spec
            (fun fr => fr.header.frame_type = some FrameType.INFO)
            md.frames defaultFrame 0 j hj'
          simpa using hspec.2.2
        have hij : i ≠ j := by
          intro he
          subst he
          exact (hout .INFO hinfo) (by simp [DEFAULT_PARSED_TYPES])
        have hget : (md.set_frame j frj).frames.getD i defaultFrame =
            md.frames.getD i defaultFrame := by
          simp only [InsvMetadata.set_frame]
          exact getD_set_ne _ j i _ _ (fun he => hij he.symm)
        have hpres := parseLoop_preserve pd
          (DEFAULT_PARSED_TYPES ++ extra) (some j)
          (List.range md.frames.length) (md.set_frame j frj) [j]
          (md', tr) i h (by rw [hget]; exact Or.inl hout)
        rw [hget] at hpres
        exact ⟨hpres, fun hpf => by rw [hpres]; exact hpf⟩

/-- C5 witness: bulk-parsing `c5Md` (unknown-code frame at index 0, INFO
frame at index 1) with the MAGNETIC extra set invokes decode on the INFO
frame first and leaves the unknown frame untouched. -/
theorem C5_bulk_parse_witness :
    c5Parsed.2.head? = some 1 ∧
    c5Parsed.1.frames.getD 0 defaultFrame =
      c5Md.frames.getD 0 defaultFrame :=
  let h := C5_bulk_parse oracle56 c5Md [.MAGNETIC] 1 rfl c5Parsed.1
    c5Parsed.2 rfl
  ⟨h.1, (h.2 0 (fun t ht => Option.noConfusion
    (show (none : Option FrameType) = some t from ht))).1⟩

/-! ## Tiling algebra -/

theorem le_endActual (fr : Frame) :
    fr.header.frame_pos ≤ fr.endActual := by
  rw [Frame.endActual]
  split <;> [skip; skip] <;> omega

theorem endActual_nonraw (fr : Frame)
    (h : fr.header.frame_type_code ≠ FrameType.RAW.code) :
    fr.endActual = fr.header.frame_pos + fr.header.frame_size +
      FRAME_HEADER_SIZE := by
  rw [Frame.endActual, if_neg h]

theorem tilesAsc_append (e : Frame → ℤ) (l1 l2 : List Frame)
    (lo mid hi : ℤ) (h1 : TilesAsc e l1 lo mid)
    (h2 : TilesAsc e l2 mid hi) : TilesAsc e (l1 ++ l2) lo hi := by
  induction l1 generalizing lo with
  | nil =>
    rw [TilesAsc] at h1
    subst h1
    exact h2
  | cons fr rest ih =>
    obtain ⟨hpos, htail⟩ := h1
    exact ⟨hpos, ih (e fr) htail⟩

theorem tilesDesc_reverse (e : Frame → ℤ) (l : List Frame) (hi lo : ℤ)
    (h : TilesDesc e l hi lo) : TilesAsc e l.reverse lo hi := by
  induction l generalizing hi with
  | nil =>
    rw [TilesDesc] at h
    subst h
    rfl
  | cons fr rest ih =>
    obtain ⟨hend, htail⟩ := h
    rw [List.reverse_cons]
    exact tilesAsc_append e rest.reverse [fr] lo fr.header.frame_pos hi
      (ih fr.header.frame_pos htail) ⟨rfl, hend⟩

theorem tilesDesc_append_bottom (e : Frame → ℤ) (l : List Frame)
    (hi lo : ℤ) (raw : Frame) (h : TilesDesc e l hi lo)
    (hraw : e raw = lo) :
    TilesDesc e (l ++ [raw]) hi raw.header.frame_pos := by
  induction l generalizing hi with
  | nil =>
    rw [TilesDesc] at h
    subst h
    exact ⟨hraw, rfl⟩
  | cons fr rest ih =>
    obtain ⟨hend, htail⟩ := h
    exact ⟨hend, ih fr.header.frame_pos htail⟩

theorem tilesAsc_le (e : Frame → ℤ) (l : List Frame) (lo hi : ℤ)
    (hm : ∀ fr ∈ l, fr.header.frame_pos ≤ e fr)
    (h : TilesAsc e l lo hi) : lo ≤ hi := by
  induction l generalizing lo with
  | nil => rw [TilesAsc] at h; omega
  | cons fr rest ih =>
    obtain ⟨hpos, htail⟩ := h
    subst hpos
    have h1 := hm fr (List.mem_cons_self fr rest)
    have h2 := ih (e fr)
      (fun g hg => hm g (List.mem_cons_of_mem fr hg)) htail
    omega

theorem subset_foldr_union (g : Frame → Set ℤ) (l : List Frame)
    (fr : Frame) (h : fr ∈ l) :
    g fr ⊆ (l.map g).foldr (· ∪ ·) ∅ := by
  induction l with
  | nil => cases h
  | cons a rest ih =>
    rcases List.mem_cons.mp h with h | h
    · subst h
      exact Set.subset_union_left
    · exact (ih h).trans Set.subset_union_right

theorem tilesAsc_tilesRegion (e : Frame → ℤ) (l : List Frame)
    (lo hi : ℤ) (hm : ∀ fr ∈ l, fr.header.frame_pos ≤ e fr)
    (h : TilesAsc e l lo hi) : TilesRegion e l lo hi := by
  induction l generalizing lo with
  | nil =>
    rw [TilesAsc] at h
    subst h
    exact ⟨List.Pairwise.nil, by simp⟩
  | cons fr rest ih =>
    obtain ⟨hpos, htail⟩ := h
    subst hpos
    obtain ⟨hpw, hun⟩ := ih (e fr)
      (fun g hg => hm g (List.mem_cons_of_mem fr hg)) htail
    have hle1 : fr.header.frame_pos ≤ e fr :=
      hm fr (List.mem_cons_self fr rest)
    have hle2 : e fr ≤ hi := tilesAsc_le e rest (e fr) hi
      (fun g hg => hm g (List.mem_cons_of_mem fr hg)) htail
    constructor
    · rw [List.pairwise_cons]
      refine ⟨fun b hb => ?_, hpw⟩
      have hsub : Frame.range e b ⊆ Set.Ico (e fr) hi := by
        rw [← hun]
        exact subset_foldr_union (Frame.range e) rest b hb
      exact (Set.Ico_disjoint_Ico_same).mono_right hsub
    · show Frame.range e fr ∪ _ = _
      rw [hun, Frame.range, Set.Ico_union_Ico_eq_Ico hle1 hle2]

/-! ## Header preservation through decoding -/

theorem timestamped_preserves (pr : List ℕ → ℕ → Except String RecordData)
    (rs : ℕ) (fr : Frame) (b : Bool) (fr' : Frame)
    (h : timestampedParseInternal pr rs fr = .ok (b, fr')) :
    fr'.header = fr.header ∧ fr'.frames_index = fr.frames_index := by
  rw [timestampedParseInternal] at h
  by_cases hrs : rs ≤ 0
  · rw [if_pos hrs] at h
    injection h with h
    injection h with h1 h2
    rw [← h2]
    exact ⟨rfl, rfl⟩
  · rw [if_neg hrs] at h
    cases hrl : recordLoop pr fr.payload rs 0 (fr.payload.length + 1) with
    | error e => rw [hrl] at h; cases h
    | ok recs =>
      rw [hrl] at h
      injection h with h
      injection h with h1 h2
      rw [← h2]
      exact ⟨rfl, rfl⟩

theorem parse_preserves_header (pd : ProtoOracle) (md : InsvMetadata)
    (fr : Frame) (b : Bool) (fr' : Frame)
    (h : Frame.parse pd md fr = .ok (b, fr')) :
    fr'.header = fr.header := by
  rw [Frame.parse] at h
  by_cases hp : fr.parsed
  · rw [if_pos hp] at h
    injection h with h
    injection h with h1 h2
    rw [← h2]
  · rw [if_neg hp] at h
    cases hpi : Frame.parseInternal pd md fr with
    | error e => rw [hpi] at h; cases h
    | ok p =>
      rw [hpi] at h
      cases p with
      | mk b0 fr0 =>
        injection h with h
        injection h with h1 h2
        rw [← h2]
        show fr0.header = fr.header
        clear h1 h2
        cases hft : fr.header.frame_type with
        | none =>
          rw [Frame.parseInternal, hft] at hpi
          injection hpi with hpi
          injection hpi with h1 hpi
          rw [← hpi]
        | some ty =>
          cases ty <;>
            first
            | (have hcode : fr.header.frame_type_code ∉ handledCodes := by
                 have hc := FrameType.code_from_code hft
                 rw [← hc]
                 decide
               rw [parseInternal_unhandled pd md fr hcode] at hpi
               injection hpi with hpi
               injection hpi with h1 hpi
               rw [← hpi])
            | (rw [parseInternal_gps pd md fr hft] at hpi
               exact (timestamped_preserves _ _ _ _ _ hpi).1)
            | (rw [parseInternal_exposure pd md fr hft] at hpi
               exact (timestamped_preserves _ _ _ _ _ hpi).1)
            | (rw [parseInternal_timelapse pd md fr hft] at hpi
               exact (timestamped_preserves _ _ _ _ _ hpi).1)
            | (rw [parseInternal_pos pd md fr hft] at hpi
               exact (timestamped_preserves _ _ _ _ _ hpi).1)
            | (rw [parseInternal_gyro pd md fr hft] at hpi
               obtain ⟨rsv, hsnd⟩ := gyro_record_size_snd md fr
               have h3 := (timestamped_preserves _ _ _ _ _ hpi).1
               rw [hsnd] at h3
               exact h3)
            | (rw [parseInternal_index pd md fr hft,
                 IndexFrame.parseInternal] at hpi
               split at hpi
               · exact absurd hpi (by simp)
               · injection hpi with hpi
                 injection hpi with h1 hpi
                 rw [← hpi])
            | (rw [parseInternal_info pd md fr hft,
                 InfoFrame.parseInternal] at hpi
               split at hpi
               · exact absurd hpi (by simp)
               · cases hpd : pd fr.payload with
                 | error e =>
                   rw [hpd] at hpi
                   exact absurd (show (Except.error e :
                       Except String (Bool × Frame)) = .ok (b0, fr0)
                     from hpi) (by simp)
                 | ok r =>
                   rw [hpd] at hpi
                   injection hpi with hpi
                   injection hpi with h1 hpi
                   rw [← hpi])

/-! ## Reading lemmas -/

theorem except_bind_ok {ε α β : Type} (a : α) (k : α → Except ε β) :
    ((Except.ok a : Except ε α) >>= k) = k a := rfl

theorem except_bind_error {ε α β : Type} (e : ε) (k : α → Except ε β) :
    ((Except.error e : Except ε α) >>= k) = .error e := rfl

theorem read_frame_spec (f : List ℕ) (hd : FrameHeader) (fr : Frame)
    (h : Frame.read f hd = .ok fr) :
    fr.header = hd ∧ fr.parsed = false ∧ fr.frames_index = [] ∧
      fr.records = [] := by
  rw [Frame.read] at h
  cases hs : seekRead f hd.frame_pos hd.frame_size with
  | error e =>
    rw [hs] at h
    exact absurd (show (Except.error e : Except String Frame) = .ok fr
      from h) (by simp)
  | ok pl =>
    rw [hs] at h
    injection h with h
    rw [← h]
    exact ⟨rfl, rfl, rfl, rfl⟩

theorem read_backward_spec (f : List ℕ) (cur : ℤ) (fh : FrameHeader)
    (h : FrameHeader.read_backward f cur = .ok fh) :
    (∃ b : ℕ, fh.frame_type_code = (b : ℤ)) ∧
      fh.frame_pos = cur - fh.frame_size - FRAME_HEADER_SIZE := by
  rw [FrameHeader.read_backward] at h
  cases hs : seekRead f (cur - FRAME_HEADER_SIZE) FRAME_HEADER_SIZE with
  | error e =>
    rw [hs] at h
    exact absurd (show (Except.error e : Except String FrameHeader) =
      .ok fh from h) (by simp)
  | ok header_data =>
    rw [hs, except_bind_ok] at h
    split at h
    · injection h with h
      rw [← h]
      exact ⟨⟨_, rfl⟩, rfl⟩
    · exact absurd h (by simp)

theorem from_index_entry_code (e : List ℕ) (mp : ℤ) (hd : FrameHeader)
    (h : FrameHeader.from_index_entry e mp = some hd) :
    ∃ b : ℕ, hd.frame_type_code = (b : ℤ) := by
  rw [FrameHeader.from_index_entry] at h
  split at h
  · cases h
  · injection h with h
    exact ⟨e.getD 0 0, by rw [← h]⟩

theorem parse_index_entries (pd : ProtoOracle) (md : InsvMetadata)
    (fr : Frame) (b : Bool) (fr' : Frame)
    (hty : fr.header.frame_type = some .INDEX) (hp : fr.parsed = false)
    (hfi : fr.frames_index = [])
    (h : Frame.parse pd md fr = .ok (b, fr')) :
    ∀ hd, some hd ∈ fr'.frames_index →
      ∃ bb : ℕ, hd.frame_type_code = (bb : ℤ) := by
  rw [Frame.parse, if_neg (by simp [hp]),
    parseInternal_index pd md fr hty, IndexFrame.parseInternal] at h
  split at h
  · exact absurd (show (Except.error "Unexpected INDEX frame size" :
      Except String (Bool × Frame)) = .ok (b, fr') from h) (by simp)
  · injection h with h
    injection h with h1 h2
    intro hd hmem
    rw [← h2] at hmem
    have hmem2 : some hd ∈
        (List.range (fr.payload.length / INDEX_ENTRY_SIZE)).map
          (fun i => FrameHeader.from_index_entry
            (slice fr.payload (INDEX_ENTRY_SIZE * i) INDEX_ENTRY_SIZE)
            md.header.metadata_pos) := by
      have : some hd ∈ fr.frames_index ++
          (List.range (fr.payload.length / INDEX_ENTRY_SIZE)).map
            (fun i => FrameHeader.from_index_entry
              (slice fr.payload (INDEX_ENTRY_SIZE * i) INDEX_ENTRY_SIZE)
              md.header.metadata_pos) := hmem
      rw [hfi, List.nil_append] at this
      exact this
    obtain ⟨i, hi, hie⟩ := List.mem_map.mp hmem2
    exact from_index_entry_code _ _ _ hie

theorem mem_insertDescByPos (a x : Frame) (l : List Frame) :
    x ∈ insertDescByPos a l ↔ x = a ∨ x ∈ l := by
  induction l with
  | nil => simp [insertDescByPos]
  | cons b rest ih =>
    rw [insertDescByPos]
    split
    · simp
    · rw [List.mem_cons, ih, List.mem_cons]
      tauto

theorem mem_sortFramesDesc (x : Frame) (l : List Frame) :
    x ∈ sortFramesDesc l ↔ x ∈ l := by
  induction l with
  | nil => simp [sortFramesDesc]
  | cons a rest ih =>
    rw [sortFramesDesc, List.foldr_cons, mem_insertDescByPos]
    rw [sortFramesDesc] at ih
    rw [ih, List.mem_cons]

theorem mapM_read_headers (f : List ℕ) (hdrs : List FrameHeader) :
    ∀ frames, hdrs.mapM (Frame.read f) = .ok frames →
      ∀ fr ∈ frames, fr.header ∈ hdrs ∧ fr.parsed = false := by
  induction hdrs with
  | nil =>
    intro frames h fr hfr
    rw [List.mapM_nil] at h
    injection h with h
    rw [← h] at hfr
    cases hfr
  | cons hd t ih =>
    intro frames h fr hfr
    rw [List.mapM_cons] at h
    cases hr : Frame.read f hd with
    | error e =>
      rw [hr] at h
      exact absurd (show (Except.error e : Except String (List Frame)) =
        .ok frames from h) (by simp)
    | ok fr0 =>
      rw [hr] at h
      cases hrest : t.mapM (Frame.read f) with
      | error e =>
        rw [hrest] at h
        exact absurd (show (Except.error e :
          Except String (List Frame)) = .ok frames from h) (by simp)
      | ok rest =>
        rw [hrest] at h
        have hfr' : frames = fr0 :: rest := by
          have h2 : (Except.ok (fr0 :: rest) :
              Except String (List Frame)) = .ok frames := h
          injection h2 with h2
          exact h2.symm
        rw [hfr'] at hfr
        rcases List.mem_cons.mp hfr with he | hm
        · subst he
          obtain ⟨hh, hpf, -, -⟩ := read_frame_spec f hd fr hr
          exact ⟨by rw [hh]; exact List.mem_cons_self hd t, hpf⟩
        · obtain ⟨hh, hpf⟩ := ih rest hrest fr hm
          exact ⟨List.mem_cons_of_mem hd hh, hpf⟩

theorem read_raw_spec (f : List ℕ) (a b : ℤ) (raw : Frame)
    (h : Frame.read_raw f a b = .ok raw) :
    raw.header.frame_type_code = FrameType.RAW.code ∧
      raw.header.frame_size = (b - a).toNat ∧
      raw.header.frame_pos = a := by
  rw [Frame.read_raw] at h
  cases hs : seekRead f a (b - a).toNat with
  | error e =>
    rw [hs, except_bind_error] at h
    exact absurd h (by simp)
  | ok pl =>
    rw [hs, except_bind_ok] at h
    injection h with h
    rw [← h]
    exact ⟨rfl, rfl, rfl⟩

theorem getLast?_cons_of_some (a : Frame) (l : List Frame) (last : Frame)
    (h : l.getLast? = some last) : (a :: l).getLast? = some last := by
  cases l with
  | nil => cases h
  | cons b t =>
    rw [List.getLast?_cons_cons]
    exact h

/-! ## The gap-filling walk tiles the region below the index frame -/

theorem gapWalk_tiles (f : List ℕ) :
    ∀ (l : List Frame) (prev : ℤ) (res : List Frame),
      InsvMetadata.gapWalk f prev l = .ok (res, true) →
      (∀ fr ∈ l, fr.header.frame_type_code ≠ FrameType.RAW.code) →
      ∃ lo, TilesDesc Frame.endActual res prev lo ∧
        ((res = [] ∧ lo = prev) ∨
          ∃ last, res.getLast? = some last ∧
            lo = last.header.frame_pos) := by
  intro l
  induction l with
  | nil =>
    intro prev res h hc
    rw [InsvMetadata.gapWalk] at h
    injection h with h
    injection h with h1 h2
    refine ⟨prev, ?_, Or.inl ⟨h1.symm, rfl⟩⟩
    rw [← h1]
    rfl
  | cons fr rest ih =>
    intro prev res h hc
    have hcfr : fr.header.frame_type_code ≠ FrameType.RAW.code :=
      hc fr (List.mem_cons_self fr rest)
    rw [InsvMetadata.gapWalk] at h
    by_cases hlt : fr.header.frame_pos + (fr.header.frame_size : ℤ) +
        (FRAME_HEADER_SIZE : ℤ) < prev
    · rw [if_pos hlt] at h
      cases hraw : Frame.read_raw f
          (fr.header.frame_pos + (fr.header.frame_size : ℤ) +
            (FRAME_HEADER_SIZE : ℤ)) prev with
      | error e =>
        rw [hraw, except_bind_error] at h
        exact absurd h (by simp)
      | ok raw =>
        rw [hraw, except_bind_ok] at h
        cases hw : InsvMetadata.gapWalk f fr.header.frame_pos rest with
        | error e =>
          rw [hw, except_bind_error] at h
          exact absurd h (by simp)
        | ok p =>
          rw [hw, except_bind_ok] at h
          cases p with
          | mk tail clean =>
            injection h with h
            injection h with h1 h2
            obtain ⟨lo, htail, hcase⟩ := ih fr.header.frame_pos tail
              (by rw [hw, h2])
              (fun g hg => hc g (List.mem_cons_of_mem fr hg))
            have hrawh := read_raw_spec f _ prev raw hraw
            have heraw : raw.endActual = prev := by
              rw [Frame.endActual, if_pos hrawh.1, hrawh.2.1, hrawh.2.2]
              omega
            have hefr : fr.endActual = raw.header.frame_pos := by
              rw [endActual_nonraw fr hcfr, hrawh.2.2]
            refine ⟨lo, ?_, ?_⟩
            · rw [← h1]
              exact ⟨heraw, hefr, htail⟩
            · rcases hcase with ⟨htn, hlo⟩ | ⟨last, hl, hlo⟩
              · subst htn
                exact Or.inr ⟨fr, by rw [← h1]; rfl, hlo⟩
              · exact Or.inr ⟨last, by
                  rw [← h1]
                  exact getLast?_cons_of_some raw _ last
                    (getLast?_cons_of_some fr tail last hl), hlo⟩
    · rw [if_neg hlt] at h
      cases hw : InsvMetadata.gapWalk f fr.header.frame_pos rest with
      | error e =>
        rw [hw, except_bind_error] at h
        exact absurd h (by simp)
      | ok p =>
        rw [hw, except_bind_ok] at h
        cases p with
        | mk tail clean =>
          injection h with h
          injection h with h1 h2
          by_cases heq : fr.header.frame_pos + (fr.header.frame_size : ℤ) +
              (FRAME_HEADER_SIZE : ℤ) = prev
          · rw [if_pos heq] at h2
            obtain ⟨lo, htail, hcase⟩ := ih fr.header.frame_pos tail
              (by rw [hw, h2])
              (fun g hg => hc g (List.mem_cons_of_mem fr hg))
            have hefr : fr.endActual = prev := by
              rw [endActual_nonraw fr hcfr]
              exact heq
            refine ⟨lo, ?_, ?_⟩
            · rw [← h1]
              exact ⟨hefr, htail⟩
            · rcases hcase with ⟨htn, hlo⟩ | ⟨last, hl, hlo⟩
              · subst htn
                exact Or.inr ⟨fr, by rw [← h1]; rfl, hlo⟩
              · exact Or.inr ⟨last, by
                  rw [← h1]
                  exact getLast?_cons_of_some fr tail last hl, hlo⟩
          · rw [if_neg heq] at h2
            cases h2

theorem except_pure_bind {ε α β : Type} (a : α) (k : α → Except ε β) :
    ((pure a : Except ε α) >>= k) = k a := rfl

theorem mem_of_getLast?_some (l : List Frame) (a : Frame)
    (h : l.getLast? = some a) : a ∈ l := by
  induction l with
  | nil => cases h
  | cons b t ih =>
    cases t with
    | nil =>
      injection h with h
      subst h
      exact List.mem_cons_self b []
    | cons c t' =>
      rw [List.getLast?_cons_cons] at h
      exact List.mem_cons_of_mem b (ih h)

/-! ## The backward scan produces a descending tiling -/

theorem readLoop_tiles (f : List ℕ) (header : InsvHeader) :
    ∀ (fuel : ℕ) (cur : ℤ) (acc res : List Frame),
      InsvMetadata.readLoop f header fuel cur acc = .ok (res, true) →
      ∃ out lo, res = acc ++ out ∧
        TilesDesc Frame.endActual out cur lo ∧
        ((out = [] ∧ lo = cur ∧ cur ≤ header.metadata_pos) ∨
          ∃ last, out.getLast? = some last ∧
            lo = last.header.frame_pos) := by
  intro fuel
  induction fuel with
  | zero =>
    intro cur acc res h
    rw [InsvMetadata.readLoop] at h
    exact absurd h (by simp)
  | succ n ih =>
    intro cur acc res h
    rw [InsvMetadata.readLoop] at h
    by_cases hle : cur ≤ header.metadata_pos
    · rw [if_pos hle] at h
      injection h with h
      injection h with h1 h2
      exact ⟨[], cur, by rw [← h1]; simp, rfl, Or.inl ⟨rfl, rfl, hle⟩⟩
    · rw [if_neg hle] at h
      cases hfh : FrameHeader.read_backward f cur with
      | error e =>
        rw [hfh, except_bind_error] at h
        exact absurd h (by simp)
      | ok fh =>
        rw [hfh, except_bind_ok] at h
        cases hfr : Frame.read f fh with
        | error e =>
          rw [hfr, except_bind_error] at h
          exact absurd h (by simp)
        | ok fr =>
          rw [hfr, except_bind_ok] at h
          obtain ⟨hfrh, hfrp, hfri, hfrr⟩ := read_frame_spec f fh fr hfr
          obtain ⟨⟨bb, hbb⟩, hpos⟩ := read_backward_spec f cur fh hfh
          have hcode : fh.frame_type_code ≠ FrameType.RAW.code := by
            rw [hbb]
            show (bb : ℤ) ≠ FrameType.code .RAW
            simp only [FrameType.code]
            omega
          have hefr : fr.endActual = cur := by
            rw [endActual_nonraw fr (by rw [hfrh]; exact hcode), hfrh,
              hpos]
            ring
          by_cases hidx : fh.frame_type = some FrameType.INDEX
          · rw [if_pos hidx] at h
            cases hp : Frame.parse noProtoOracle ⟨header, acc ++ [fr]⟩
                fr with
            | error e =>
              rw [hp, except_bind_error] at h
              exact absurd h (by simp)
            | ok p =>
              rw [hp, except_bind_ok] at h
              cases p with
              | mk b fr' =>
                dsimp only at h
                cases hind : InsvMetadata.read_indexed_frames f fr' with
                | error e =>
                  rw [hind, except_bind_error] at h
                  exact absurd h (by simp)
                | ok q =>
                  rw [hind, except_bind_ok] at h
                  cases q with
                  | mk indexed clean =>
                    injection h with h
                    injection h with h1 h2
                    dsimp only at h1 h2
                    have hfh' : fr'.header = fh := by
                      rw [parse_preserves_header _ _ _ _ _ hp, hfrh]
                    rw [InsvMetadata.read_indexed_frames] at hind
                    cases hm : (fr'.frames_index.filterMap id).mapM
                        (Frame.read f) with
                    | error e =>
                      rw [hm, except_bind_error] at hind
                      exact absurd hind (by simp)
                    | ok frames =>
                      rw [hm, except_bind_ok] at hind
                      rw [h2] at hind
                      have hcodes : ∀ g ∈ sortFramesDesc frames,
                          g.header.frame_type_code ≠
                            FrameType.RAW.code := by
                        intro g hg
                        have hgf := (mem_sortFramesDesc g frames).mp hg
                        obtain ⟨hhd, -⟩ :=
                          mapM_read_headers f _ frames hm g hgf
                        obtain ⟨o, ho, hoe⟩ := List.mem_filterMap.mp hhd
                        rw [show o = some g.header from hoe] at ho
                        obtain ⟨bb2, hbb2⟩ := parse_index_entries
                          noProtoOracle ⟨header, acc ++ [fr]⟩ fr b fr'
                          (by rw [hfrh]; exact hidx) hfrp hfri hp
                          g.header ho
                        rw [hbb2]
                        show (bb2 : ℤ) ≠ FrameType.code .RAW
                        simp only [FrameType.code]
                        omega
                      obtain ⟨lo, hwalk, hwcase⟩ := gapWalk_tiles f
                        (sortFramesDesc frames) fr'.header.frame_pos
                        indexed hind hcodes
                      refine ⟨fr' :: indexed, lo, ?_, ?_, ?_⟩
                      · rw [← h1]
                        simp
                      · have hefr' : fr'.endActual = cur := by
                          rw [endActual_nonraw fr'
                            (by rw [hfh']; exact hcode), hfh', hpos]
                          ring
                        exact ⟨hefr', hwalk⟩
                      · rcases hwcase with ⟨hin, hlo⟩ | ⟨last, hl, hlo⟩
                        · subst hin
                          exact Or.inr ⟨fr', rfl, hlo⟩
                        · exact Or.inr ⟨last,
                            getLast?_cons_of_some fr' indexed last hl,
                            hlo⟩
          · rw [if_neg hidx] at h
            obtain ⟨out', lo, hres, htiles, hcase⟩ := ih
              (cur - fh.frame_size - FRAME_HEADER_SIZE) (acc ++ [fr])
              res h
            refine ⟨fr :: out', lo, ?_, ?_, ?_⟩
            · rw [hres]
              simp
            · refine ⟨hefr, ?_⟩
              rw [hfrh, hpos]
              exact htiles
            · rcases hcase with ⟨hn, hlo, hle'⟩ | ⟨last, hl, hlo⟩
              · subst hn
                exact Or.inr ⟨fr, rfl, by rw [hlo, hfrh, hpos]⟩
              · exact Or.inr ⟨last, getLast?_cons_of_some fr out' last hl,
                  hlo⟩

/-- C1, counterexample to the literal claim: on `file100` the build
succeeds cleanly and every frame of the final directory starts inside the
metadata region (`metadata_pos = 0`), yet the uniform ranges
`[position, position + size + 6)` do not tile
`[metadata_pos, file_size - 72)`: the synthetic raw gap-filler at `[8, 12)`
carries no trailing 6-byte header, so its uniform range `[8, 18)` overlaps
the INDEX frame's range `[12, 28)` at byte 12. -/
theorem C1_counterexample :
    InsvMetadata.read file100 = .ok (some (file100Md, true)) ∧
    (∀ fr ∈ file100Md.frames,
      file100Md.header.metadata_pos ≤ fr.header.frame_pos) ∧
    ¬ TilesRegion Frame.endPlus6 file100Md.frames
      file100Md.header.metadata_pos
      ((file100.length : ℤ) - HEADER_SIZE) := by
  refine ⟨rfl, by decide, ?_⟩
  intro ht
  obtain ⟨hpw, -⟩ := ht
  have hfr : file100Md.frames = [frameA, frameGap, frameIdx] := rfl
  rw [hfr] at hpw
  have hd := (List.pairwise_cons.mp ((List.pairwise_cons.mp hpw).2)).1
    frameIdx (List.mem_cons_self frameIdx [])
  have h1 : (12 : ℤ) ∈ Frame.range Frame.endPlus6 frameGap := by
    rw [Frame.range, Set.mem_Ico]
    refine ⟨by decide, by decide⟩
  have h2 : (12 : ℤ) ∈ Frame.range Frame.endPlus6 frameIdx := by
    rw [Frame.range, Set.mem_Ico]
    refine ⟨by decide, by decide⟩
  exact Set.disjoint_left.mp hd h1 h2

/-- C1 (amended): after a clean, successful build of the model whose
final directory's frames all start at or after `metadata_pos`, the
directory exactly tiles `[metadata_pos, file_size - 72)` with no overlap
and no gap, where a real frame's range extends 6 bytes past its payload
(its trailing header) and a synthetic raw gap-filler's range is its
payload alone (it has no header of its own). -/
theorem C1_directory_tiling (f : List ℕ) (md : InsvMetadata)
    (h : InsvMetadata.read f = .ok (some (md, true)))
    (hlo : ∀ fr ∈ md.frames,
      md.header.metadata_pos ≤ fr.header.frame_pos) :
    TilesRegion Frame.endActual md.frames md.header.metadata_pos
      ((f.length : ℤ) - HEADER_SIZE) := by
  rw [InsvMetadata.read] at h
  cases hh : InsvHeader.read f with
  | error e =>
    rw [hh, except_bind_error] at h
    exact absurd h (by simp)
  | ok o =>
    rw [hh, except_bind_ok] at h
    cases o with
    | none => exact absurd h (by simp)
    | some header =>
      dsimp only at h
      cases hloop : InsvMetadata.readLoop f header
          (header.metadata_size + 1) ((f.length : ℤ) - HEADER_SIZE) [] with
      | error e =>
        rw [hloop, except_bind_error] at h
        exact absurd h (by simp)
      | ok q =>
        rw [hloop, except_bind_ok] at h
        cases q with
        | mk frames0 clean =>
          dsimp only at h
          cases hl : frames0.getLast? with
          | none =>
            rw [hl] at h
            dsimp only at h
            rw [except_pure_bind] at h
            injection h with h
            injection h with h
            injection h with h1 h2
            subst h2
            obtain ⟨out, lo, hout, htiles, hcase⟩ := readLoop_tiles f
              header (header.metadata_size + 1)
              ((f.length : ℤ) - HEADER_SIZE) [] frames0 hloop
            rw [List.nil_append] at hout
            rcases hcase with ⟨hnil, -, hle⟩ | ⟨last, hll, -⟩
            · subst h1
              show TilesRegion Frame.endActual frames0.reverse
                header.metadata_pos ((f.length : ℤ) - HEADER_SIZE)
              rw [hout, hnil]
              exact ⟨List.Pairwise.nil, by
                simp only [List.reverse_nil, List.map_nil, List.foldr_nil]
                exact (Set.Ico_eq_empty (not_lt.mpr hle)).symm⟩
            · rw [hout, hll] at hl
              cases hl
          | some last =>
            rw [hl] at h
            dsimp only at h
            by_cases hgt : last.header.frame_pos > header.metadata_pos
            · rw [if_pos hgt] at h
              cases hraw : Frame.read_raw f header.metadata_pos
                  last.header.frame_pos with
              | error e =>
                rw [hraw, except_bind_error, except_bind_error] at h
                exact absurd h (by simp)
              | ok raw =>
                rw [hraw, except_bind_ok, except_pure_bind] at h
                injection h with h
                injection h with h
                injection h with h1 h2
                subst h2
                subst h1
                obtain ⟨hpcode, hpsize, hppos⟩ :=
                  read_raw_spec f header.metadata_pos
                    last.header.frame_pos raw hraw
                obtain ⟨out, lo, hout, htiles, hcase⟩ := readLoop_tiles f
                  header (header.metadata_size + 1)
                  ((f.length : ℤ) - HEADER_SIZE) [] frames0 hloop
                rw [List.nil_append] at hout
                rw [hout] at hl
                rcases hcase with ⟨hnil, -, -⟩ | ⟨last', hll, hlo'⟩
                · rw [hnil, List.getLast?_nil] at hl
                  cases hl
                · rw [hl] at hll
                  injection hll with he
                  subst he
                  have heraw : Frame.endActual raw =
                      last.header.frame_pos := by
                    rw [Frame.endActual, if_pos hpcode, hppos, hpsize,
                      Int.toNat_of_nonneg (by omega)]
                    ring
                  have hdesc := tilesDesc_append_bottom Frame.endActual
                    out ((f.length : ℤ) - HEADER_SIZE) lo raw htiles
                    (by rw [hlo']; exact heraw)
                  rw [hppos] at hdesc
                  have hasc := tilesDesc_reverse Frame.endActual
                    (out ++ [raw]) ((f.length : ℤ) - HEADER_SIZE)
                    header.metadata_pos hdesc
                  have hreg := tilesAsc_tilesRegion Frame.endActual
                    (out ++ [raw]).reverse header.metadata_pos
                    ((f.length : ℤ) - HEADER_SIZE)
                    (fun fr _ => le_endActual fr) hasc
                  show TilesRegion Frame.endActual
                    ((frames0 ++ [raw]).reverse) header.metadata_pos
                    ((f.length : ℤ) - HEADER_SIZE)
                  rw [hout]
                  exact hreg
            · rw [if_neg hgt] at h
              rw [except_pure_bind] at h
              injection h with h
              injection h with h
              injection h with h1 h2
              subst h2
              subst h1
              obtain ⟨out, lo, hout, htiles, hcase⟩ := readLoop_tiles f
                header (header.metadata_size + 1)
                ((f.length : ℤ) - HEADER_SIZE) [] frames0 hloop
              rw [List.nil_append] at hout
              rw [hout] at hl
              rcases hcase with ⟨hnil, -, -⟩ | ⟨last', hll, hlo'⟩
              · rw [hnil, List.getLast?_nil] at hl
                cases hl
              · rw [hl] at hll
                injection hll with he
                subst he
                have hmem : last ∈ out.reverse :=
                  List.mem_reverse.mpr (mem_of_getLast?_some out last hl)
                have hple : header.metadata_pos ≤
                    last.header.frame_pos :=
                  hlo last (by rw [← hout] at hmem; exact hmem)
                have hpe : last.header.frame_pos =
                    header.metadata_pos := by omega
                rw [hlo', hpe] at htiles
                have hasc := tilesDesc_reverse Frame.endActual out
                  ((f.length : ℤ) - HEADER_SIZE) header.metadata_pos
                  htiles
                have hreg := tilesAsc_tilesRegion Frame.endActual
                  out.reverse header.metadata_pos
                  ((f.length : ℤ) - HEADER_SIZE)
                  (fun fr _ => le_endActual fr) hasc
                show TilesRegion Frame.endActual frames0.reverse
                  header.metadata_pos ((f.length : ℤ) - HEADER_SIZE)
                rw [hout]
                exact hreg

/-- Witness for the amended C1 at the concrete `file100`: the build
succeeds cleanly, every frame's position is at or after `metadata_pos`,
and the payload-plus-header ranges (payload alone for the raw filler)
exactly tile `[0, 28)`. -/
theorem C1_directory_tiling_witness :
    InsvMetadata.read file100 = .ok (some (file100Md, true)) ∧
    (∀ fr ∈ file100Md.frames,
      file100Md.header.metadata_pos ≤ fr.header.frame_pos) ∧
    TilesRegion Frame.endActual file100Md.frames
      file100Md.header.metadata_pos
      ((file100.length : ℤ) - HEADER_SIZE) :=
  ⟨rfl, by decide, C1_directory_tiling file100 file100Md rfl (by decide)⟩

end InsvDump
















